import Mathlib

/-
Verification of the longevity blood-test analysis core.

This file gives a shallow embedding, in Lean 4, of the pure computational
core of the repository:

* the locale-aware number parser `parsePolishNumber` and the JS `parseFloat`
  semantics it relies on (src: aiService `parsePolishNumber`);
* the measurement normalizer and three-band status classifier
  (`validateAndNormalizeBiomarkers`, `determineStatus`);
* the mock biomarker generator of `analysisService.js`
  (`generateMockBiomarkers`);
* the cross-document merge engine (`mergeBiomarkers`);
* the anonymization pipeline of `main.jsx` (demographic extractors,
  `removePersonalIdentifiers`, `validateAnonymization`, `anonymizeDocument`),
  including hand-compiled versions of each regular expression it uses;
* the structured-recovery parser of `extractBiomarkersFromText`, together
  with a fuel-based JSON syntax checker standing for `JSON.parse`.

Strings are modelled as `List Char` (JS strings), JS numbers as `ℚ` with
exact arithmetic (the concrete values appearing in the claims are small
decimal fractions on which double rounding is exact), JS `NaN` results as
`Option ℚ`, and thrown exceptions as `Except`.
-/

-- Rational arithmetic is kernel-computable; resetting these operations to
-- semireducible lets concrete evaluations go through `decide`.
unseal Rat.mul Rat.inv Rat.add Rat.sub Rat.ofScientific

/-! ## Basic string utilities -/

/-- Characters of a string literal, the `List Char` view used throughout. -/
def chars (s : String) : List Char := s.data

/-- ASCII digit test, the JS `\d` class. -/
def isDigitCh (c : Char) : Bool := decide ('0' ≤ c) && decide (c ≤ '9')

/-- Numeric value of an ASCII digit character. -/
def digitValCh (c : Char) : Nat := c.toNat - 48

/-- Decimal value of a digit string, as read left to right (JS `parseInt`). -/
def digitsVal (l : List Char) : Nat := l.foldl (fun a c => a * 10 + digitValCh c) 0

/-- Whitespace class of JS regexes and `String.prototype.trim` restricted to
the ASCII whitespace characters that can appear in this pipeline. -/
def jsWhitespace (c : Char) : Bool :=
  c = ' ' || c = '\t' || c = '\n' || c = '\r' || c = '\x0b' || c = '\x0c'

/-- JS `String.prototype.trim`: drop whitespace from both ends. -/
def trimStr (s : List Char) : List Char :=
  ((s.dropWhile jsWhitespace).reverse.dropWhile jsWhitespace).reverse

/-- Prefix test by character equality. -/
def startsWithLit : List Char → List Char → Bool
  | [], _ => true
  | _ :: _, [] => false
  | p :: ps, c :: cs => p = c && startsWithLit ps cs

/-- Whether `pat` occurs as a contiguous substring of `s` (decidable scan). -/
def containsSub (s pat : List Char) : Bool :=
  match s with
  | [] => pat.isEmpty
  | _ :: rest => startsWithLit pat s || containsSub rest pat

/-! ## JS numeric semantics -/

/-- Result of parsing the exponent marker of a float literal: the exponent,
or `none` when no well-formed exponent follows (in which case JS `parseFloat`
ignores the tail). -/
def parseExponent (s : List Char) : Option Int :=
  match s with
  | c :: rest =>
    if c = 'e' || c = 'E' then
      let (sgn, rest') : Int × List Char :=
        match rest with
        | '-' :: r => (-1, r)
        | '+' :: r => (1, r)
        | _ => (1, rest)
      let ds := rest'.takeWhile isDigitCh
      if ds.isEmpty then none else some (sgn * (digitsVal ds : Int))
    else none
  | [] => none

/-- JS `parseFloat`: skip leading whitespace, read an optional sign, a digit
string, an optional fraction and an optional exponent, ignoring any trailing
garbage; `none` models the `NaN` result when no digits are found. -/
def jsParseFloat (s0 : List Char) : Option ℚ :=
  let s := s0.dropWhile jsWhitespace
  let (sgn, s1) : ℚ × List Char :=
    match s with
    | '-' :: r => (-1, r)
    | '+' :: r => (1, r)
    | _ => (1, s)
  let intPart := s1.takeWhile isDigitCh
  let s2 := s1.dropWhile isDigitCh
  let (fracPart, s3) : List Char × List Char :=
    match s2 with
    | '.' :: r => (r.takeWhile isDigitCh, r.dropWhile isDigitCh)
    | _ => ([], s2)
  if intPart.isEmpty && fracPart.isEmpty then none
  else
    let mant : ℚ := (digitsVal intPart : ℚ) + (digitsVal fracPart : ℚ) / (10 ^ fracPart.length)
    let e : Int := (parseExponent s3).getD 0
    some (sgn * mant * (10 : ℚ) ^ e)

/-- Values a loosely-typed biomarker field can hold in the decoded JSON:
a number, a string, or anything else (modelled as the one `undef` case,
for which `parsePolishNumber` returns `NaN`). -/
inductive JsValue where
  | num (q : ℚ)
  | str (s : List Char)
  | undef
deriving DecidableEq, Repr

/-- Replace the first comma of a string by a dot: JS
`value.replace(',', '.')` with a string pattern substitutes only the first
occurrence. -/
def replaceFirstComma : List Char → List Char
  | [] => []
  | c :: r => if c = ',' then '.' :: r else c :: replaceFirstComma r

/-- Source `parsePolishNumber` (aiService): numbers pass through, strings
have their first comma replaced by a dot and go through `parseFloat`, any
other type yields `NaN` (`none`). -/
def parsePolishNumber : JsValue → Option ℚ
  | .num q => some q
  | .str s => jsParseFloat (replaceFirstComma s)
  | .undef => none

/-! ## Measurement normalizer and classifier -/

/-- Status values produced by the classifier (source strings `'optimal'`,
`'suboptimal'`, `'concerning'`). -/
inductive Status where
  | optimal
  | suboptimal
  | concerning
deriving DecidableEq, Repr

/-- Declared optimal range of a measurement. -/
structure OptimalRange where
  min : ℚ
  max : ℚ
deriving DecidableEq, Repr

/-- Validated measurement record (source shape `{name, value, unit,
optimalRange, status, description}`). -/
structure Biomarker where
  name : List Char
  value : ℚ
  unit : List Char
  optimalRange : OptimalRange
  status : Status
  description : List Char
deriving DecidableEq, Repr

/-- Source `determineStatus`: with `range = max - min` and
`margin = range * 0.1`, a value inside `[min - margin, max + margin]` is
optimal, inside the doubled band suboptimal, otherwise concerning. -/
def determineStatus (value : ℚ) (optimalRange : OptimalRange) : Status :=
  let range := optimalRange.max - optimalRange.min
  let margin := range * (1 / 10)
  if optimalRange.min - margin ≤ value ∧ value ≤ optimalRange.max + margin then
    .optimal
  else if optimalRange.min - margin * 2 ≤ value ∧ value ≤ optimalRange.max + margin * 2 then
    .suboptimal
  else
    .concerning

/-- Loosely-typed optimal range as decoded from model output; an absent
bound is `JsValue.undef`. -/
structure RawRange where
  min : JsValue
  max : JsValue
deriving DecidableEq, Repr

/-- Raw candidate record as decoded from model output, before validation. -/
structure RawBiomarker where
  name : Option (List Char)
  value : JsValue
  unit : Option (List Char)
  optimalRange : Option RawRange
  description : Option (List Char)
deriving DecidableEq, Repr

/-- JS `x || 0` applied to a `parsePolishNumber` result: `NaN` is falsy and
becomes `0`; the numeric value `0` is also falsy but `0 || 0` is again `0`,
so propagating `some q` unchanged is faithful. -/
def jsOrZero : Option ℚ → ℚ
  | none => 0
  | some q => q

/-- Body of the `.map` in source `validateAndNormalizeBiomarkers`: `none`
models the `null` marker for an unparsable value. -/
def normalizeBiomarker (b : RawBiomarker) : Option Biomarker :=
  match parsePolishNumber b.value with
  | none => none
  | some numValue =>
    let mm : ℚ × ℚ :=
      match b.optimalRange with
      | none => (0, 0)
      | some r =>
        let mn := jsOrZero (parsePolishNumber r.min)
        let mx := jsOrZero (parsePolishNumber r.max)
        -- Source caps very high max values at 999999.
        (mn, if 999999 < mx then 999999 else mx)
    some
      { name := trimStr (b.name.getD [])
        value := numValue
        unit := trimStr (b.unit.getD [])
        optimalRange := { min := mm.1, max := mm.2 }
        status := determineStatus numValue { min := mm.1, max := mm.2 }
        description := b.description.getD [] }

/-- Filter predicate of source `validateAndNormalizeBiomarkers`: drop the
`null` markers and records with an empty name or unit (the `!isNaN(b.value)`
conjunct is vacuous here because a surviving record's value came from a
successful parse). -/
def keepBiomarker : Option Biomarker → Bool
  | none => false
  | some b => !b.name.isEmpty && !b.unit.isEmpty

/-- Source `validateAndNormalizeBiomarkers`: map each raw candidate through
the normalizer, then filter out rejected candidates. -/
def validateAndNormalizeBiomarkers (raws : List RawBiomarker) : List Biomarker :=
  ((raws.map normalizeBiomarker).filter keepBiomarker).filterMap id

/-! ## Mock biomarker generator (analysisService.js) -/

/-- JS `Math.round`: round to the nearest integer, halves toward plus
infinity. -/
def jsRound (q : ℚ) : ℚ := ((⌊q + 1 / 2⌋ : ℤ) : ℚ)

/-- Source `generateMockBiomarkers` of `analysisService.js`: the hard-coded
mock record list, with `variationFactor = 1 + variation * 0.05` applied to
selected values. -/
def generateMockBiomarkers (variation : ℕ) : List Biomarker :=
  let f : ℚ := 1 + (variation : ℚ) * (5 / 100)
  [ { name := chars "RBC (Erythrocytes)", value := jsRound (45 / 10 * f * 1000000),
      unit := chars "/µl", optimalRange := { min := 4200000, max := 5700000 },
      status := .optimal, description := chars "Red blood cell count within normal range" }
  , { name := chars "Hemoglobin (Hb)", value := jsRound (15 * f),
      unit := chars "g/dL", optimalRange := { min := 14, max := 18 },
      status := .optimal, description := chars "Hemoglobin levels normal" }
  , { name := chars "Hematocrit (HCT)", value := jsRound (45 * f),
      unit := chars "%", optimalRange := { min := 40, max := 54 },
      status := .optimal, description := chars "Hematocrit within normal range" }
  , { name := chars "WBC (White Blood Cells)", value := jsRound (7 * f * 1000),
      unit := chars "/µl", optimalRange := { min := 4000, max := 10000 },
      status := .optimal, description := chars "White blood cell count normal" }
  , { name := chars "Platelets (PLT)", value := jsRound (250 * f * 1000),
      unit := chars "/µl", optimalRange := { min := 150000, max := 400000 },
      status := .optimal, description := chars "Platelet count within normal range" }
  , { name := chars "MCV", value := jsRound (88 * f),
      unit := chars "fL", optimalRange := { min := 82, max := 96 },
      status := .optimal, description := chars "Mean corpuscular volume normal" }
  , { name := chars "Total Cholesterol", value := jsRound (220 * f),
      unit := chars "mg/dL", optimalRange := { min := 0, max := 200 },
      status := .suboptimal, description := chars "Slightly elevated cholesterol levels" }
  , { name := chars "HDL Cholesterol", value := 55,
      unit := chars "mg/dL", optimalRange := { min := 40, max := 100 },
      status := .optimal, description := chars "Good HDL levels" }
  , { name := chars "LDL Cholesterol", value := 140,
      unit := chars "mg/dL", optimalRange := { min := 0, max := 100 },
      status := .suboptimal, description := chars "LDL levels above optimal range" }
  , { name := chars "Triglycerides", value := 150,
      unit := chars "mg/dL", optimalRange := { min := 0, max := 150 },
      status := .optimal, description := chars "Triglycerides within normal range" }
  , { name := chars "Glucose", value := jsRound (95 * f),
      unit := chars "mg/dL", optimalRange := { min := 70, max := 100 },
      status := .optimal, description := chars "Blood glucose within normal range" }
  , { name := chars "HbA1c", value := 54 / 10,
      unit := chars "%", optimalRange := { min := 4, max := 56 / 10 },
      status := .optimal, description := chars "Excellent blood sugar control" }
  , { name := chars "C-Reactive Protein (CRP)", value := 21 / 10,
      unit := chars "mg/L", optimalRange := { min := 0, max := 1 },
      status := .concerning, description := chars "Elevated inflammation markers" }
  , { name := chars "ESR", value := jsRound (15 * f),
      unit := chars "mm/h", optimalRange := { min := 0, max := 20 },
      status := .optimal, description := chars "Erythrocyte sedimentation rate normal" }
  , { name := chars "ALT", value := jsRound (25 * f),
      unit := chars "U/L", optimalRange := { min := 0, max := 40 },
      status := .optimal, description := chars "ALT levels normal" }
  , { name := chars "AST", value := jsRound (28 * f),
      unit := chars "U/L", optimalRange := { min := 0, max := 40 },
      status := .optimal, description := chars "AST levels normal" }
  , { name := chars "ALP", value := jsRound (85 * f),
      unit := chars "U/L", optimalRange := { min := 44, max := 147 },
      status := .optimal, description := chars "Alkaline phosphatase normal" }
  , { name := chars "Bilirubin", value := jsRound (8 / 10 * f * 10) / 10,
      unit := chars "mg/dL", optimalRange := { min := 1 / 10, max := 12 / 10 },
      status := .optimal, description := chars "Bilirubin levels normal" }
  , { name := chars "GGT", value := jsRound (30 * f),
      unit := chars "U/L", optimalRange := { min := 0, max := 60 },
      status := .optimal, description := chars "GGT levels normal" }
  , { name := chars "Creatinine", value := jsRound (9 / 10 * f * 10) / 10,
      unit := chars "mg/dL", optimalRange := { min := 6 / 10, max := 12 / 10 },
      status := .optimal, description := chars "Creatinine levels normal" }
  , { name := chars "BUN", value := jsRound (15 * f),
      unit := chars "mg/dL", optimalRange := { min := 7, max := 20 },
      status := .optimal, description := chars "Blood urea nitrogen normal" }
  , { name := chars "eGFR", value := jsRound (90 * f),
      unit := chars "mL/min/1.73m²", optimalRange := { min := 90, max := 120 },
      status := .optimal, description := chars "Estimated glomerular filtration rate normal" }
  , { name := chars "TSH", value := jsRound (2 * f * 10) / 10,
      unit := chars "mIU/L", optimalRange := { min := 4 / 10, max := 4 },
      status := .optimal, description := chars "Thyroid-stimulating hormone normal" }
  , { name := chars "Free T4", value := jsRound (12 / 10 * f * 10) / 10,
      unit := chars "ng/dL", optimalRange := { min := 8 / 10, max := 18 / 10 },
      status := .optimal, description := chars "Free T4 levels normal" }
  , { name := chars "Free T3", value := jsRound (32 / 10 * f * 10) / 10,
      unit := chars "pg/mL", optimalRange := { min := 23 / 10, max := 42 / 10 },
      status := .optimal, description := chars "Free T3 levels normal" }
  , { name := chars "Vitamin D", value := 28,
      unit := chars "ng/mL", optimalRange := { min := 30, max := 100 },
      status := .suboptimal, description := chars "Vitamin D levels below optimal" }
  , { name := chars "Calcium", value := jsRound (95 / 10 * f * 10) / 10,
      unit := chars "mg/dL", optimalRange := { min := 85 / 10, max := 105 / 10 },
      status := .optimal, description := chars "Calcium levels normal" }
  , { name := chars "Phosphorus", value := jsRound (35 / 10 * f * 10) / 10,
      unit := chars "mg/dL", optimalRange := { min := 25 / 10, max := 45 / 10 },
      status := .optimal, description := chars "Phosphorus levels normal" }
  , { name := chars "Magnesium", value := jsRound (2 * f * 10) / 10,
      unit := chars "mg/dL", optimalRange := { min := 17 / 10, max := 22 / 10 },
      status := .optimal, description := chars "Magnesium levels normal" }
  , { name := chars "Testosterone", value := 450,
      unit := chars "ng/dL", optimalRange := { min := 300, max := 1000 },
      status := .optimal, description := chars "Testosterone within healthy range" }
  ]

/-! ## Cross-document merge engine (analysisService.js mergeBiomarkers) -/

/-- Severity rank of a status (source `statusPriority`,
`{concerning: 3, suboptimal: 2, optimal: 1}`). -/
def statusPriority : Status → ℕ
  | .concerning => 3
  | .suboptimal => 2
  | .optimal => 1

/-- Absolute distance of a record's value from the midpoint of its own
declared optimal range, as computed inside source `mergeBiomarkers`. -/
def distFromMid (m : Biomarker) : ℚ :=
  |m.value - (m.optimalRange.min + m.optimalRange.max) / 2|

/-- Lookup in the insertion-ordered association list modelling the JS `Map`
keyed by biomarker name. -/
def lookupName (m : List (List Char × Biomarker)) (k : List Char) : Option Biomarker :=
  match m with
  | [] => none
  | (k1, v) :: rest => if k1 = k then some v else lookupName rest k

/-- JS `Map.prototype.set`: updating a present key keeps its position,
a new key is appended at the end. -/
def setName (m : List (List Char × Biomarker)) (k : List Char) (v : Biomarker) :
    List (List Char × Biomarker) :=
  match m with
  | [] => [(k, v)]
  | (k1, v1) :: rest => if k1 = k then (k, v) :: rest else (k1, v1) :: setName rest k v

/-- Body of the `forEach` in source `mergeBiomarkers`: keep an unseen name;
replace the kept record when the incoming one has strictly higher severity
rank; on equal status keep whichever is farther from its own range
midpoint. -/
def mergeStep (acc : List (List Char × Biomarker)) (marker : Biomarker) :
    List (List Char × Biomarker) :=
  match lookupName acc marker.name with
  | none => setName acc marker.name marker
  | some existing =>
    if statusPriority existing.status < statusPriority marker.status then
      setName acc marker.name marker
    else if marker.status = existing.status then
      if distFromMid existing < distFromMid marker then setName acc marker.name marker
      else acc
    else acc

/-- Source `mergeBiomarkers`: fold the combined marker list into the map,
then return the kept records in insertion order
(`Array.from(biomarkerMap.values())`). -/
def mergeBiomarkers (biomarkers : List Biomarker) : List Biomarker :=
  (biomarkers.foldl mergeStep []).map Prod.snd

/-- Well-formedness of the merge map: every entry is keyed by its record's
name and keys are unique (both hold for every map the fold builds). -/
def NamesOk (m : List (List Char × Biomarker)) : Prop :=
  (∀ p ∈ m, p.2.name = p.1) ∧ (m.map Prod.fst).Nodup

/-! ## Character classes and word boundaries (JS regex semantics) -/

/-- ASCII uppercase letter. -/
def isAsciiUpper (c : Char) : Bool := decide ('A' ≤ c) && decide (c ≤ 'Z')

/-- ASCII lowercase letter. -/
def isAsciiLower (c : Char) : Bool := decide ('a' ≤ c) && decide (c ≤ 'z')

/-- Uppercase letters of the name-pattern class `[A-ZĄĆĘŁŃÓŚŹŻ]`. -/
def isUpperPol (c : Char) : Bool :=
  isAsciiUpper c || (['Ą', 'Ć', 'Ę', 'Ł', 'Ń', 'Ó', 'Ś', 'Ź', 'Ż'].contains c)

/-- Lowercase letters of the name-pattern class `[a-ząćęłńóśźż]`. -/
def isLowerPol (c : Char) : Bool :=
  isAsciiLower c || (['ą', 'ć', 'ę', 'ł', 'ń', 'ó', 'ś', 'ź', 'ż'].contains c)

/-- JS regex `\w` without the Unicode flag: ASCII letters, digits and the
underscore only — Polish diacritics are deliberately NOT word characters,
exactly as in the source's regexes. -/
def isWordCh (c : Char) : Bool :=
  isAsciiUpper c || isAsciiLower c || isDigitCh c || c = '_'

/-- Word-character test on an optional character (ends of the string count
as non-word). -/
def isWordOpt : Option Char → Bool
  | none => false
  | some c => isWordCh c

/-- JS `\b`: a word boundary lies between two positions of different
word-ness. -/
def wordBoundary (prev next : Option Char) : Bool := isWordOpt prev != isWordOpt next

/-- Case folding for the case-insensitive (`/i`) patterns of the source:
ASCII uppercase and the Polish uppercase letters appearing in the patterns
fold to lowercase. -/
def foldLower (c : Char) : Char :=
  if isAsciiUpper c then Char.ofNat (c.toNat + 32)
  else if c = 'Ą' then 'ą' else if c = 'Ć' then 'ć' else if c = 'Ę' then 'ę'
  else if c = 'Ł' then 'ł' else if c = 'Ń' then 'ń' else if c = 'Ó' then 'ó'
  else if c = 'Ś' then 'ś' else if c = 'Ź' then 'ź' else if c = 'Ż' then 'ż'
  else c

/-- Case-insensitive prefix test (for `/i` literals and alternations). -/
def startsWithCI : List Char → List Char → Bool
  | [], _ => true
  | _ :: _, [] => false
  | p :: ps, c :: cs => foldLower p = foldLower c && startsWithCI ps cs

/-- Character of `l` at index `i`, if any. -/
def charAt (l : List Char) (i : Nat) : Option Char := l.get? i

/-- Whether the character at index `i` is a word character. -/
def isWordAt (l : List Char) (i : Nat) : Bool := isWordOpt (charAt l i)

/-- Whether positions `i, …, i+n-1` of `l` all exist and hold digits. -/
def digitsAt (l : List Char) (i n : Nat) : Bool :=
  ((l.drop i).take n).length = n && ((l.drop i).take n).all isDigitCh

/-! ## Generic regex drivers -/

/-- First match of a positional matcher, scanning positions left to right
with the preceding character threaded through for `\b` tests; this is the
JS `String.match` / `RegExp.test` position loop. -/
def findFirstFrom {α : Type} (m : Option Char → List Char → Option α) :
    Option Char → List Char → Option α
  | prev, [] => m prev []
  | prev, c :: rest =>
    match m prev (c :: rest) with
    | some a => some a
    | none => findFirstFrom m (some c) rest

/-- First match of a matcher over a whole string. -/
def findFirst {α : Type} (m : Option Char → List Char → Option α) (s : List Char) :
    Option α := findFirstFrom m none s

/-- JS `RegExp.test`: does the pattern match anywhere. -/
def existsMatch (m : Option Char → List Char → Option Nat) (s : List Char) : Bool :=
  (findFirst m s).isSome

/-- Scan for `String.replace(/…/g, repl)`: replace each non-overlapping
match from left to right. Matching is always performed against the original
characters (as JS does), the previous original character is threaded for
`\b`. `fuel` starts at `length + 1`; every step consumes at least one
character because none of the patterns in this file can match the empty
string, so the fuel never runs out. -/
def replaceScan (m : Option Char → List Char → Option Nat) (repl : List Char) :
    Nat → Option Char → List Char → List Char
  | 0, _, l => l
  | _ + 1, _, [] => []
  | fuel + 1, prev, c :: rest =>
    match m prev (c :: rest) with
    | none => c :: replaceScan m repl fuel (some c) rest
    | some n =>
      repl ++ replaceScan m repl fuel
        ((((c :: rest).take n).getLast?).orElse (fun _ => prev))
        ((c :: rest).drop n)

/-- JS `String.replace(/…/g, repl)`. -/
def replaceAll (m : Option Char → List Char → Option Nat) (repl s : List Char) :
    List Char :=
  replaceScan m repl (s.length + 1) none s

/-- First `some` in a list of attempts: alternation / backtracking order of
a regex engine, leftmost alternative first. -/
def firstSome {α : Type} (xs : List (Option α)) : Option α :=
  xs.foldl (fun a b => a.orElse (fun _ => b)) none

/-! ## Hand-compiled matchers for the redactor patterns (main.jsx) -/

/-- Backtracking tail of a greedy character run: the largest `k` with
`kmin ≤ k ≤ start` such that a word boundary separates positions `k-1` and
`k` of `l`; mirrors the engine backtracking of `[…]{kmin,}\b`. -/
def backtrackRun (l : List Char) (kmin : Nat) : Nat → Option Nat
  | 0 => none
  | k + 1 =>
    if k + 1 < kmin then none
    else if wordBoundary (charAt l k) (charAt l (k + 1)) then some (k + 1)
    else backtrackRun l kmin k

/-- Name pattern `\b[A-ZĄĆĘŁŃÓŚŹŻ][a-ząćęłńóśźż]{2,}\s+[A-ZĄĆĘŁŃÓŚŹŻ][a-ząćęłńóśźż]{2,}\b`
(redactor rule 1 and the leak validator's name check). The first lowercase
run and the whitespace run need no backtracking because their classes are
disjoint from what must follow; the final run backtracks for the `\b`. -/
def nameMatchAt (prev : Option Char) (l : List Char) : Option Nat :=
  match l with
  | [] => none
  | c1 :: rest1 =>
    if isUpperPol c1 && wordBoundary prev (some c1) then
      let run1 := rest1.takeWhile isLowerPol
      if run1.length < 2 then none
      else
        let afterTok1 := rest1.drop run1.length
        let sps := afterTok1.takeWhile jsWhitespace
        if sps.length = 0 then none
        else
          match afterTok1.drop sps.length with
          | [] => none
          | c2 :: rest2 =>
            if isUpperPol c2 then
              match backtrackRun rest2 2 (rest2.takeWhile isLowerPol).length with
              | some k => some (1 + run1.length + sps.length + 1 + k)
              | none => none
            else none
    else none

/-- PESEL pattern `\b\d{11}\b` (redactor rule 2 and validator check). -/
def peselMatchAt (prev : Option Char) (l : List Char) : Option Nat :=
  if digitsAt l 0 11 && wordBoundary prev (charAt l 0)
      && wordBoundary (charAt l 10) (charAt l 11) then
    some 11
  else none

/-- One alternative of the institutional-ID pattern with `k` leading
uppercase letters. -/
def idAlphaTry (l : List Char) (k : Nat) : Option Nat :=
  if ((l.take k).length = k && (l.take k).all isAsciiUpper) then
    let dl := ((l.drop k).takeWhile isDigitCh).length
    if 6 ≤ dl && !isWordAt l (k + dl) then some (k + dl) else none
  else none

/-- Institutional-ID pattern `\b[A-Z]{2,3}\d{6,}\b` (redactor rule 3);
greedy `{2,3}` tries three letters before two. -/
def idAlphaMatchAt (prev : Option Char) (l : List Char) : Option Nat :=
  if wordBoundary prev (charAt l 0) then
    firstSome [idAlphaTry l 3, idAlphaTry l 2]
  else none

/-- Letter class of the address pattern under `/i`: both cases of ASCII and
of the Polish letters. -/
def isLetterPol (c : Char) : Bool := isUpperPol c || isLowerPol c

/-- Address pattern
`\b(ul\.|ulica|street|str\.)\s+[A-ZĄĆĘŁŃÓŚŹŻ][a-ząćęłńóśźż\s]+(?:\d+[A-Za-z]?)?`
with the `/gi` flag (redactor rule 4): an introducer keyword, whitespace, a
letter, a greedy letters-and-whitespace run, and an optional house number
with an optional letter. -/
def addressMatchAt (prev : Option Char) (l : List Char) : Option Nat :=
  if wordBoundary prev (charAt l 0) then
    firstSome
      ([chars "ul.", chars "ulica", chars "street", chars "str."].map (fun kw =>
        if startsWithCI kw l then
          let afterKw := l.drop kw.length
          let sps := afterKw.takeWhile jsWhitespace
          if sps.length = 0 then none
          else
            match afterKw.drop sps.length with
            | [] => none
            | c2 :: rest2 =>
              if isLetterPol c2 then
                let body := rest2.takeWhile (fun c => isLowerPol c || isUpperPol c || jsWhitespace c)
                if body.length = 0 then none
                else
                  let afterBody := rest2.drop body.length
                  let digs := afterBody.takeWhile isDigitCh
                  let optNum :=
                    if digs.length = 0 then 0
                    else
                      digs.length +
                        (match charAt afterBody digs.length with
                         | some c => if isAsciiUpper c || isAsciiLower c then 1 else 0
                         | none => 0)
                  some (kw.length + sps.length + 1 + body.length + optNum)
              else none
        else none))
  else none

/-- Separator class `[\s-]` of the phone pattern. -/
def isSepCh (c : Char) : Bool := jsWhitespace c || c = '-'

/-- Whether `s` separator characters sit at position `i` (`s` is 0 or 1,
the two choices of `[\s-]?`). -/
def sepOk (l : List Char) (i s : Nat) : Bool :=
  s = 0 ||
    (match charAt l i with
     | some c => isSepCh c
     | none => false)

/-- Core of the phone pattern `\d{2,3}[\s-]?\d{3}[\s-]?\d{3}\b` starting at
offset `off`, trying the greedy choices in engine order. -/
def phoneFrom (l : List Char) (off : Nat) : Option Nat :=
  firstSome
    ([(3, 1, 1), (3, 1, 0), (3, 0, 1), (3, 0, 0),
      (2, 1, 1), (2, 1, 0), (2, 0, 1), (2, 0, 0)].map (fun t =>
      let (d1, s1, s2) := t
      let p1 := off + d1
      let p2 := p1 + s1
      let p3 := p2 + 3
      let p4 := p3 + s2
      let p5 := p4 + 3
      if digitsAt l off d1 && sepOk l p1 s1 && digitsAt l p2 3 && sepOk l p3 s2 &&
          digitsAt l p4 3 && !isWordAt l p5 then
        some p5
      else none))

/-- Phone pattern `\b(?:\+48\s?)?\d{2,3}[\s-]?\d{3}[\s-]?\d{3}\b` (redactor
rule 5); the optional `+48` prefix (with optional space) is tried first. -/
def phoneMatchAt (prev : Option Char) (l : List Char) : Option Nat :=
  if wordBoundary prev (charAt l 0) then
    let withGroup :=
      if startsWithLit (chars "+48") l then
        firstSome
          [(match charAt l 3 with
            | some c => if jsWhitespace c then phoneFrom l 4 else none
            | none => none),
           phoneFrom l 3]
      else none
    withGroup.orElse (fun _ => phoneFrom l 0)
  else none

/-- Local-part class `[A-Za-z0-9._%+-]` of the email pattern. -/
def isLocalCh (c : Char) : Bool :=
  isAsciiUpper c || isAsciiLower c || isDigitCh c ||
    (['.', '_', '%', '+', '-'].contains c)

/-- Domain class `[A-Za-z0-9.-]` of the email pattern. -/
def isDomainCh (c : Char) : Bool :=
  isAsciiUpper c || isAsciiLower c || isDigitCh c || c = '.' || c = '-'

/-- Top-level-domain class of the email pattern: the source writes
`[A-Z|a-z]`, which literally also contains the pipe character. -/
def isTldCh (c : Char) : Bool := isAsciiUpper c || isAsciiLower c || c = '|'

/-- Tail of the email pattern after a chosen domain length: a literal dot,
then `[A-Z|a-z]{2,}\b` with its own backtracking. -/
def emailTld (l : List Char) (dotPos : Nat) : Option Nat :=
  match charAt l dotPos with
  | some c =>
    if c = '.' then
      let tl := l.drop (dotPos + 1)
      match backtrackRun tl 2 (tl.takeWhile isTldCh).length with
      | some j => some (dotPos + 1 + j)
      | none => none
    else none
  | none => none

/-- Backtracking over the greedy `[A-Za-z0-9.-]+` of the email pattern:
try the longest domain run first, then shorter ones, each followed by
`\.[A-Z|a-z]{2,}\b`. -/
def emailDomain (l : List Char) (atPos : Nat) : Nat → Option Nat
  | 0 => none
  | k + 1 =>
    match emailTld l (atPos + 1 + (k + 1)) with
    | some e => some e
    | none => emailDomain l atPos k

/-- Email pattern `\b[A-Za-z0-9._%+-]+@[A-Za-z0-9.-]+\.[A-Z|a-z]{2,}\b`
(redactor rule 6 and validator check). The local run needs no backtracking
because `@` is not in its class. -/
def emailMatchAt (prev : Option Char) (l : List Char) : Option Nat :=
  if wordBoundary prev (charAt l 0) then
    let lp := (l.takeWhile isLocalCh).length
    if lp = 0 then none
    else
      match charAt l lp with
      | some c =>
        if c = '@' then
          let dom := ((l.drop (lp + 1)).takeWhile isDomainCh).length
          emailDomain l lp dom
        else none
      | none => none
  else none

/-- Institution pattern
`\b(ALAB|Diagnostyka|SYNEVO|Medycyna|Laboratorium)[\s\w]*` with `/gi`
(redactor rule 7): a keyword (case-insensitive, tried in order) followed by
a greedy run of whitespace and word characters. -/
def instMatchAt (prev : Option Char) (l : List Char) : Option Nat :=
  if wordBoundary prev (charAt l 0) then
    firstSome
      ([chars "ALAB", chars "Diagnostyka", chars "SYNEVO", chars "Medycyna",
        chars "Laboratorium"].map (fun kw =>
        if startsWithCI kw l then
          some (kw.length +
            ((l.drop kw.length).takeWhile (fun c => jsWhitespace c || isWordCh c)).length)
        else none))
  else none

/-- Source `removePersonalIdentifiers`: the seven global replacements in
their fixed order. -/
def removePersonalIdentifiers (content : List Char) : List Char :=
  let s1 := replaceAll nameMatchAt (chars "[NAME]") content
  let s2 := replaceAll peselMatchAt (chars "[ID]") s1
  let s3 := replaceAll idAlphaMatchAt (chars "[ID]") s2
  let s4 := replaceAll addressMatchAt (chars "[ADDRESS]") s3
  let s5 := replaceAll phoneMatchAt (chars "[PHONE]") s4
  let s6 := replaceAll emailMatchAt (chars "[EMAIL]") s5
  replaceAll instMatchAt (chars "[INSTITUTION]") s6

/-! ## Demographic and date extractors (main.jsx) -/

/-- Run of `[\s:]` characters (the `[\s:]*` between a keyword and its
value). -/
def isSpaceColon (c : Char) : Bool := jsWhitespace c || c = ':'

/-- Age pattern 1 `(?:wiek|age|lat|years?)[\s:]*(\d{1,3})` with `/i`:
alternatives in engine order (`years?` greedy, so `years` before `year`),
then separators, then one to three digits (greedy, no tail so no
backtracking); yields the parsed group. -/
def ageP1At (_prev : Option Char) (l : List Char) : Option Nat :=
  firstSome
    ([chars "wiek", chars "age", chars "lat", chars "years", chars "year"].map
      (fun kw =>
        if startsWithCI kw l then
          let rest := l.drop kw.length
          let sep := (rest.takeWhile isSpaceColon).length
          let ds := ((rest.drop sep).takeWhile isDigitCh).take 3
          if ds.length = 0 then none else some (digitsVal ds)
        else none))

/-- Age pattern 2 `(\d{1,3})[\s]*(?:lat|years?|roku)` with `/i`: one to
three digits (greedy, backtracking), whitespace, then a keyword. -/
def ageP2At (_prev : Option Char) (l : List Char) : Option Nat :=
  firstSome
    ([3, 2, 1].map (fun d =>
      if digitsAt l 0 d then
        let rest := l.drop d
        let sep := (rest.takeWhile jsWhitespace).length
        let tail := rest.drop sep
        if [chars "lat", chars "years", chars "year", chars "roku"].any
            (fun kw => startsWithCI kw tail) then
          some (digitsVal (l.take d))
        else none
      else none))

/-- Source `extractAge`: first pattern whose first match parses into the
plausible range `[1, 120]` wins; a match outside the range falls through to
the next pattern. -/
def extractAge (content : List Char) : Option Nat :=
  let c1 := (findFirst ageP1At content).bind
    (fun n => if 1 ≤ n ∧ n ≤ 120 then some n else none)
  let c2 := (findFirst ageP2At content).bind
    (fun n => if 1 ≤ n ∧ n ≤ 120 then some n else none)
  c1.orElse (fun _ => c2)

/-- Decimal group `\d+(?:\.\d+)?` at the start of `l`: the matched length
and its `parseFloat` value. The integer and fraction runs are greedy and
need no backtracking against the keyword tails that follow them (those
start with letters, never digits or dots). -/
def decimalGroupAt (l : List Char) : Option (Nat × ℚ) :=
  let ip := (l.takeWhile isDigitCh).length
  if ip = 0 then none
  else
    let fp :=
      match charAt l ip with
      | some c =>
        if c = '.' then
          let fd := ((l.drop (ip + 1)).takeWhile isDigitCh).length
          if fd = 0 then 0 else 1 + fd
        else 0
      | none => 0
    let len := ip + fp
    match jsParseFloat (l.take len) with
    | some q => some (len, q)
    | none => none

/-- Weight pattern 1
`(?:masa|weight|waga)[\s:]*(\d+(?:\.\d+)?)[\s]*(?:kg|kilogram)` with `/i`. -/
def weightP1At (_prev : Option Char) (l : List Char) : Option ℚ :=
  firstSome
    ([chars "masa", chars "weight", chars "waga"].map (fun kw =>
      if startsWithCI kw l then
        let rest := l.drop kw.length
        let sep := (rest.takeWhile isSpaceColon).length
        match decimalGroupAt (rest.drop sep) with
        | some (len, q) =>
          let tail := (rest.drop sep).drop len
          let sp2 := (tail.takeWhile jsWhitespace).length
          if [chars "kg", chars "kilogram"].any
              (fun kw2 => startsWithCI kw2 (tail.drop sp2)) then
            some q
          else none
        | none => none
      else none))

/-- Weight pattern 2 `(\d+(?:\.\d+)?)[\s]*kg` with `/i`. -/
def weightP2At (_prev : Option Char) (l : List Char) : Option ℚ :=
  match decimalGroupAt l with
  | some (len, q) =>
    let tail := l.drop len
    let sp := (tail.takeWhile jsWhitespace).length
    if startsWithCI (chars "kg") (tail.drop sp) then some q else none
  | none => none

/-- Source `extractWeight`: first pattern whose first match parses into
`[20, 300]` wins. -/
def extractWeight (content : List Char) : Option ℚ :=
  let c1 := (findFirst weightP1At content).bind
    (fun q => if 20 ≤ q ∧ q ≤ 300 then some q else none)
  let c2 := (findFirst weightP2At content).bind
    (fun q => if 20 ≤ q ∧ q ≤ 300 then some q else none)
  c1.orElse (fun _ => c2)

/-- Two-to-three digit group followed by whitespace and a keyword from
`kws`, mirroring `(\d{2,3})[\s]*(kw…)` with the `{2,3}` backtracking. -/
def heightDigitsAt (l : List Char) (kws : List (List Char)) : Option Nat :=
  firstSome
    ([3, 2].map (fun d =>
      if digitsAt l 0 d then
        let rest := l.drop d
        let sep := (rest.takeWhile jsWhitespace).length
        if kws.any (fun kw => startsWithCI kw (rest.drop sep)) then
          some (digitsVal (l.take d))
        else none
      else none))

/-- Height pattern 1 `(?:wzrost|height|wysokość)[\s:]*(\d{2,3})[\s]*(?:cm|centymetr)`
with `/i`. -/
def heightP1At (_prev : Option Char) (l : List Char) : Option Nat :=
  firstSome
    ([chars "wzrost", chars "height", chars "wysokość"].map (fun kw =>
      if startsWithCI kw l then
        let rest := l.drop kw.length
        let sep := (rest.takeWhile isSpaceColon).length
        heightDigitsAt (rest.drop sep) [chars "cm", chars "centymetr"]
      else none))

/-- Height pattern 2 `(\d{2,3})[\s]*cm` with `/i`. -/
def heightP2At (_prev : Option Char) (l : List Char) : Option Nat :=
  heightDigitsAt l [chars "cm"]

/-- Source `extractHeight`: first pattern whose first match parses into
`[100, 250]` wins. -/
def extractHeight (content : List Char) : Option Nat :=
  let c1 := (findFirst heightP1At content).bind
    (fun n => if 100 ≤ n ∧ n ≤ 250 then some n else none)
  let c2 := (findFirst heightP2At content).bind
    (fun n => if 100 ≤ n ∧ n ≤ 250 then some n else none)
  c1.orElse (fun _ => c2)

/-- Sex-keyword pattern `(?:płeć|gender)[\s:]*[C]` with `/i`, where `C` is
the one-character class of the concrete pattern (`[Mm]` or `[FfKk]`). -/
def genderKwAt (cls : List Char) (_prev : Option Char) (l : List Char) : Option Nat :=
  firstSome
    ([chars "płeć", chars "gender"].map (fun kw =>
      if startsWithCI kw l then
        let rest := l.drop kw.length
        let sep := (rest.takeWhile isSpaceColon).length
        match charAt rest sep with
        | some c => if cls.contains (foldLower c) then some (kw.length + sep + 1) else none
        | none => none
      else none))

/-- Second male pattern `mężczyzna|male|m\b` with `/i`: a case-insensitive
keyword, or a bare `m`/`M` at a trailing word boundary. -/
def maleAltAt (_prev : Option Char) (l : List Char) : Option Nat :=
  firstSome
    [if startsWithCI (chars "mężczyzna") l then some (chars "mężczyzna").length else none,
     if startsWithCI (chars "male") l then some (chars "male").length else none,
     match l with
     | c :: rest =>
       if foldLower c = 'm' && !isWordOpt rest.head? then some 1 else none
     | [] => none]

/-- Second female pattern `kobieta|female|f\b` with `/i`. -/
def femaleAltAt (_prev : Option Char) (l : List Char) : Option Nat :=
  firstSome
    [if startsWithCI (chars "kobieta") l then some (chars "kobieta").length else none,
     if startsWithCI (chars "female") l then some (chars "female").length else none,
     match l with
     | c :: rest =>
       if foldLower c = 'f' && !isWordOpt rest.head? then some 1 else none
     | [] => none]

/-- Source `extractGender`: every male pattern is tested before any female
pattern; the first pattern that matches anywhere decides. -/
def extractGender (content : List Char) : Option Char :=
  if existsMatch (genderKwAt (chars "m")) content then some 'M'
  else if existsMatch maleAltAt content then some 'M'
  else if existsMatch (genderKwAt (chars "fk")) content then some 'F'
  else if existsMatch femaleAltAt content then some 'F'
  else none

/-! ## Test-date extraction (main.jsx extractTestDate) -/

/-- Date pattern `(\d{1,2})\.(\d{1,2})\.(\d{4})` (or with `/` as separator)
at one position: greedy one-or-two-digit groups with full cross-group
backtracking, then exactly four digits; yields the three parsed groups. -/
def dateSepAt (sep : Char) (_prev : Option Char) (l : List Char) :
    Option (Nat × Nat × Nat) :=
  firstSome
    ([(2, 2), (2, 1), (1, 2), (1, 1)].map (fun p =>
      let (a, b) := p
      if digitsAt l 0 a && (charAt l a == some sep) && digitsAt l (a + 1) b &&
          (charAt l (a + 1 + b) == some sep) && digitsAt l (a + 2 + b) 4 then
        some (digitsVal (l.take a), digitsVal ((l.drop (a + 1)).take b),
          digitsVal ((l.drop (a + 2 + b)).take 4))
      else none))

/-- Date pattern `(\d{4})-(\d{1,2})-(\d{1,2})` at one position. -/
def dateIsoAt (_prev : Option Char) (l : List Char) : Option (Nat × Nat × Nat) :=
  firstSome
    ([2, 1].map (fun b =>
      firstSome
        ([2, 1].map (fun c =>
          if digitsAt l 0 4 && (charAt l 4 == some '-') && digitsAt l 5 b &&
              (charAt l (5 + b) == some '-') && digitsAt l (6 + b) c then
            some (digitsVal (l.take 4), digitsVal ((l.drop 5).take b),
              digitsVal ((l.drop (6 + b)).take c))
          else none))))

/-- Gregorian leap-year rule (as implemented by the JS `Date`). -/
def isLeapYear (y : Nat) : Bool := (y % 4 = 0 && y % 100 != 0) || y % 400 = 0

/-- Days in a month of the Gregorian calendar. -/
def daysInMonth (y m : Nat) : Nat :=
  if m = 2 then (if isLeapYear y then 29 else 28)
  else if m = 4 || m = 6 || m = 9 || m = 11 then 30
  else 31

/-- Models the source's round-trip check through `Date.UTC`: constructing
`Date.UTC(year, month-1, day)` and reading the fields back reproduces
`(year, month, day)` exactly when the month is in range and the day does
not exceed the month's length (JS `Date` normalizes overflowing fields,
which the read-back comparison then detects). -/
def dateRoundTrips (y m d : Nat) : Bool :=
  1 ≤ m && m ≤ 12 && 1 ≤ d && d ≤ daysInMonth y m

/-- Digit character of a value below ten. -/
def digitCh : Nat → Char
  | 0 => '0' | 1 => '1' | 2 => '2' | 3 => '3' | 4 => '4'
  | 5 => '5' | 6 => '6' | 7 => '7' | 8 => '8' | 9 => '9'
  | _ => '*'

/-- Two-digit zero-padded rendering (for values below 100). -/
def pad2 (n : Nat) : List Char := [digitCh (n / 10 % 10), digitCh (n % 10)]

/-- Four-digit zero-padded rendering (for values below 10000). -/
def pad4 (n : Nat) : List Char :=
  [digitCh (n / 1000 % 10), digitCh (n / 100 % 10), digitCh (n / 10 % 10),
    digitCh (n % 10)]

/-- Canonical date string `date.toISOString().split('T')[0]`:
zero-padded `YYYY-MM-DD`. -/
def canonicalDate (y m d : Nat) : List Char :=
  pad4 y ++ '-' :: (pad2 m ++ '-' :: pad2 d)

/-- Validation applied to one matched date: the source's range guards plus
the `Date.UTC` round-trip; returns the canonical string when accepted. -/
def tryDate (y m d : Nat) : Option (List Char) :=
  if 2000 ≤ y && y ≤ 2100 && 1 ≤ m && m ≤ 12 && 1 ≤ d && d ≤ 31 &&
      dateRoundTrips y m d then
    some (canonicalDate y m d)
  else none

/-- Source `extractTestDate`: try `DD.MM.YYYY`, then `YYYY-MM-DD`, then
`DD/MM/YYYY`; a pattern that matches but fails validation falls through to
the next pattern. -/
def extractTestDate (content : List Char) : Option (List Char) :=
  let t1 := (findFirst (dateSepAt '.') content).bind
    (fun g => tryDate g.2.2 g.2.1 g.1)
  let t2 := (findFirst dateIsoAt content).bind
    (fun g => tryDate g.1 g.2.1 g.2.2)
  let t3 := (findFirst (dateSepAt '/') content).bind
    (fun g => tryDate g.2.2 g.2.1 g.1)
  (t1.orElse (fun _ => t2)).orElse (fun _ => t3)

/-! ## Anonymization service entry points (main.jsx) -/

/-- Extracted demographics with independently nullable fields. -/
structure Demographics where
  age : Option Nat
  weight : Option ℚ
  height : Option Nat
  gender : Option Char
deriving DecidableEq, Repr

/-- Source `extractMedicalData` result shape: biomarkers (always empty at
this stage), demographics and the test date. -/
structure MedicalData where
  biomarkers : List Biomarker
  demographics : Demographics
  testDate : Option (List Char)
deriving DecidableEq, Repr

/-- Source `extractMedicalData`. -/
def extractMedicalData (content : List Char) : MedicalData :=
  { biomarkers := []
    demographics :=
      { age := extractAge content
        weight := extractWeight content
        height := extractHeight content
        gender := extractGender content }
    testDate := extractTestDate content }

/-- Source `validateAnonymization`: the list of accumulated error messages;
the caller throws when it is nonempty. The `medicalData.demographics.age &&`
truthiness guard makes the age clause vacuous unless the age is nonzero. -/
def validateAnonymization (anonymizedContent : List Char) (medicalData : MedicalData) :
    List (List Char) :=
  (if existsMatch nameMatchAt anonymizedContent then
    [chars "Potential name detected in anonymized content"] else []) ++
  (if existsMatch peselMatchAt anonymizedContent then
    [chars "Potential PESEL detected in anonymized content"] else []) ++
  (if existsMatch emailMatchAt anonymizedContent then
    [chars "Potential email detected in anonymized content"] else []) ++
  (match medicalData.demographics.age with
   | some a => if a ≠ 0 && (a < 1 || 120 < a) then [chars "Invalid age extracted"] else []
   | none => [])

/-- Optional upload metadata handed to `anonymizeDocument`. -/
structure FileMetadata where
  type : Option (List Char)
  size : Option Nat
deriving DecidableEq, Repr

/-- Metadata block of the returned document. -/
structure AnonymizedMetadata where
  fileType : List Char
  fileSize : Nat
  anonymizedAt : List Char
deriving DecidableEq, Repr

/-- Return shape of `anonymizeDocument`. -/
structure AnonymizedDocument where
  anonymizedContent : List Char
  medicalData : MedicalData
  metadata : AnonymizedMetadata
deriving DecidableEq, Repr

/-- An arbitrary JS argument: a string, or any non-string value. -/
inductive JsInput where
  | strIn (s : List Char)
  | nonString
deriving DecidableEq, Repr

/-- Errors thrown by `anonymizeDocument`. -/
inductive AnonError where
  | inputError (msg : List Char)
  | validationError (msgs : List (List Char))
deriving DecidableEq, Repr

/-- Source `anonymizeDocument`. The call to `new Date().toISOString()` is
the one impure read of the function; it is made explicit here as the `now`
argument. Thrown exceptions are the `Except.error` results, which carry no
document — in particular no partially redacted text. -/
def anonymizeDocument (content : JsInput) (metadata : FileMetadata) (now : List Char) :
    Except AnonError AnonymizedDocument :=
  match content with
  | .nonString => .error (.inputError (chars "Content must be a non-empty string"))
  | .strIn s =>
    if s.isEmpty then .error (.inputError (chars "Content must be a non-empty string"))
    else
      let medicalData := extractMedicalData s
      let anonymizedContent := removePersonalIdentifiers s
      let errors := validateAnonymization anonymizedContent medicalData
      if errors.isEmpty then
        .ok
          { anonymizedContent := anonymizedContent
            medicalData := medicalData
            metadata :=
              { fileType := metadata.type.getD (chars "unknown")
                fileSize := metadata.size.getD 0
                anonymizedAt := now } }
      else .error (.validationError errors)

/-- Agreement of two `anonymizeDocument` results on everything except the
processing timestamp `metadata.anonymizedAt`. -/
def agreeExceptTimestamp :
    Except AnonError AnonymizedDocument → Except AnonError AnonymizedDocument → Prop
  | .error e1, .error e2 => e1 = e2
  | .ok r1, .ok r2 =>
    r1.anonymizedContent = r2.anonymizedContent ∧ r1.medicalData = r2.medicalData
      ∧ r1.metadata.fileType = r2.metadata.fileType
      ∧ r1.metadata.fileSize = r2.metadata.fileSize
  | _, _ => False

/-! ## Structured recovery parser (aiService extractBiomarkersFromText) -/

/-- State of the character scan in the recovery path: brace nesting depth,
in-string flag, escape flag and the accumulated `currentBiomarker`. -/
structure ScanState where
  braceCount : Int
  inString : Bool
  escapeNext : Bool
  current : List Char
deriving DecidableEq, Repr

/-- Initial scan state. -/
def initScanState : ScanState := ⟨0, false, false, []⟩

/-- One iteration of the recovery loop over `biomarkersText`: escapes are
consumed blindly, quotes toggle the in-string flag, braces adjust the depth
only outside strings, and when the depth returns to zero outside a string
with a nonblank buffer the buffer is emitted as a candidate and reset. -/
def scanStep (st : ScanState) (c : Char) : ScanState × Option (List Char) :=
  if st.escapeNext then
    ({ st with current := st.current ++ [c], escapeNext := false }, none)
  else if c = '\\' then
    ({ st with current := st.current ++ [c], escapeNext := true }, none)
  else
    let inString := if c = '"' then !st.inString else st.inString
    let braceCount :=
      if !inString then
        if c = '{' then st.braceCount + 1
        else if c = '}' then st.braceCount - 1
        else st.braceCount
      else st.braceCount
    let current := st.current ++ [c]
    if !inString && braceCount = 0 && (trimStr current).length ≠ 0 then
      (⟨braceCount, inString, false, []⟩, some current)
    else
      (⟨braceCount, inString, false, current⟩, none)

/-- The whole scan: thread the state through the text, collecting the
emitted candidates in order. -/
def scanBiomarkers : ScanState → List Char → ScanState × List (List Char)
  | st, [] => (st, [])
  | st, c :: rest =>
    let p := scanStep st c
    let q := scanBiomarkers p.1 rest
    match p.2 with
    | some cand => (q.1, cand :: q.2)
    | none => q

/-- JS `candidate.replace(/,\s*$/, '')`: drop one trailing comma together
with the whitespace following it, when the candidate ends that way. -/
def stripTrailingComma (s : List Char) : List Char :=
  let r := s.reverse
  let sp := r.takeWhile jsWhitespace
  match r.drop sp.length with
  | ',' :: rest => rest.reverse
  | _ => s

/-- Suffix test by character equality. -/
def endsWithLit (p s : List Char) : Bool := startsWithLit p.reverse s.reverse

/-! ### JSON syntax checker standing for `JSON.parse`

The recovery path validates each candidate (and the synthesized envelope)
with `JSON.parse`; only success or failure matters there, so `JSON.parse`
is embedded as a fuel-based syntax checker over the JSON grammar. The fuel
decreases on every recursive call and starts at `length + 1`, which is
enough because every recursive call strictly consumes input. -/

/-- JSON whitespace (as in the JSON grammar; narrower than the JS regex
whitespace class). -/
def jsonWs (c : Char) : Bool := c = ' ' || c = '\t' || c = '\n' || c = '\r'

/-- Skip JSON whitespace. -/
def skipJsonWs (l : List Char) : List Char := l.dropWhile jsonWs

/-- Hexadecimal digit (for string `\uXXXX` escapes). -/
def isHexCh (c : Char) : Bool :=
  isDigitCh c || (decide ('a' ≤ c) && decide (c ≤ 'f')) ||
    (decide ('A' ≤ c) && decide (c ≤ 'F'))

/-- Rest of a JSON string after its opening quote: ordinary characters
(code points at least 0x20, except quote and backslash) and escapes, until
the closing quote; returns the remainder. -/
def pStringRest : List Char → Option (List Char)
  | [] => none
  | c :: rest =>
    if c = '"' then some rest
    else if c = '\\' then
      match rest with
      | [] => none
      | e :: rest2 =>
        if ['"', '\\', '/', 'b', 'f', 'n', 'r', 't'].contains e then pStringRest rest2
        else if e = 'u' then
          match rest2 with
          | h1 :: h2 :: h3 :: h4 :: rest3 =>
            if isHexCh h1 && isHexCh h2 && isHexCh h3 && isHexCh h4 then
              pStringRest rest3
            else none
          | _ => none
        else none
    else if c.toNat < 32 then none
    else pStringRest rest

/-- Exponent part of a JSON number (optional). -/
def pExp (l : List Char) : Option (List Char) :=
  match l with
  | [] => some []
  | c :: r =>
    if c = 'e' || c = 'E' then
      let r2 := match r with
        | [] => []
        | s :: rr => if s = '+' || s = '-' then rr else s :: rr
      if (r2.takeWhile isDigitCh).isEmpty then none
      else some (r2.dropWhile isDigitCh)
    else some (c :: r)

/-- Fraction part of a JSON number (optional), then the exponent. -/
def pFrac (l : List Char) : Option (List Char) :=
  match l with
  | [] => pExp []
  | c :: r =>
    if c = '.' then
      if (r.takeWhile isDigitCh).isEmpty then none
      else pExp (r.dropWhile isDigitCh)
    else pExp (c :: r)

/-- JSON number: optional minus, an integer part without leading zeros,
optional fraction and exponent. -/
def pNumber (l : List Char) : Option (List Char) :=
  let l1 := match l with
    | [] => []
    | c :: r => if c = '-' then r else c :: r
  match l1 with
  | [] => none
  | c :: r =>
    if c = '0' then pFrac r
    else if isDigitCh c then pFrac (r.dropWhile isDigitCh)
    else none

mutual

/-- JSON value (input already whitespace-skipped); returns the remainder.
An object or array dispatches directly on its first token: a closing
bracket ends it, anything else starts its member/element list. -/
def pValue : Nat → List Char → Option (List Char)
  | 0, _ => none
  | fuel + 1, l =>
    match l with
    | [] => none
    | c :: rest =>
      if c = '"' then pStringRest rest
      else if c = '{' then
        match skipJsonWs rest with
        | [] => pObjMembers fuel []
        | c2 :: r2 => if c2 = '}' then some r2 else pObjMembers fuel (c2 :: r2)
      else if c = '[' then
        match skipJsonWs rest with
        | [] => pArrItems fuel []
        | c2 :: r2 => if c2 = ']' then some r2 else pArrItems fuel (c2 :: r2)
      else if startsWithLit (chars "true") (c :: rest) then some ((c :: rest).drop 4)
      else if startsWithLit (chars "false") (c :: rest) then some ((c :: rest).drop 5)
      else if startsWithLit (chars "null") (c :: rest) then some ((c :: rest).drop 4)
      else pNumber (c :: rest)

/-- One or more `"key": value` members separated by commas, ending at the
closing brace. -/
def pObjMembers : Nat → List Char → Option (List Char)
  | 0, _ => none
  | fuel + 1, l =>
    match l with
    | '"' :: rest =>
      match pStringRest rest with
      | some r2 =>
        match skipJsonWs r2 with
        | ':' :: r3 =>
          match pValue fuel (skipJsonWs r3) with
          | some r4 =>
            match skipJsonWs r4 with
            | ',' :: r5 => pObjMembers fuel (skipJsonWs r5)
            | '}' :: r5 => some r5
            | _ => none
          | none => none
        | _ => none
      | none => none
    | _ => none

/-- One or more array elements separated by commas, ending at the closing
bracket. -/
def pArrItems : Nat → List Char → Option (List Char)
  | 0, _ => none
  | fuel + 1, l =>
    match pValue fuel l with
    | some r =>
      match skipJsonWs r with
      | ',' :: r2 => pArrItems fuel (skipJsonWs r2)
      | ']' :: r2 => some r2
      | _ => none
    | none => none

end

/-- Whether `JSON.parse` succeeds on `s`. -/
def jsonValid (s : List Char) : Bool :=
  match pValue (s.length + 1) (skipJsonWs s) with
  | some r => (skipJsonWs r).isEmpty
  | none => false

/-- Processing of one emitted candidate (source: trim, strip one trailing
comma, require braces at both ends, require `JSON.parse` success); invalid
candidates are skipped, valid ones are kept in their cleaned form. -/
def acceptCandidate (cand : List Char) : Option (List Char) :=
  let cleaned := stripTrailingComma (trimStr cand)
  if startsWithLit (chars "\x7b") cleaned && endsWithLit (chars "\x7d") cleaned &&
      jsonValid cleaned then
    some cleaned
  else none

/-- Matcher for `/"biomarkers"\s*:\s*\[([\s\S]*)/` at one position: the
literal field name, optional whitespace, a colon, optional whitespace and
the opening bracket; the greedy capture group is everything after it. -/
def biomarkersArrayAt (_prev : Option Char) (l : List Char) : Option (List Char) :=
  if startsWithLit (chars "\"biomarkers\"") l then
    match (l.drop (chars "\"biomarkers\"").length).dropWhile jsWhitespace with
    | ':' :: r2 =>
      match r2.dropWhile jsWhitespace with
      | '[' :: r3 => some r3
      | _ => none
    | _ => none
  else none

/-- First match of the biomarkers-array regex over the cleaned content. -/
def findBiomarkersArray (s : List Char) : Option (List Char) :=
  findFirst biomarkersArrayAt s

/-- Failures of the recovery path (source: the `No biomarkers array found`
and `Could not extract any complete biomarkers` errors). -/
inductive RecoveryError where
  | noBiomarkersArray
  | noCompleteBiomarkers
deriving DecidableEq, Repr

/-- Recovery path of `extractBiomarkersFromText`, entered when strict
`JSON.parse` of the cleaned response fails: locate the biomarkers array,
scan it character by character, validate each emitted candidate, and fail
with an explicit error when no candidate survives; on success the source
re-parses the synthesized envelope `{"biomarkers": [..joined..]}`, whose
array elements are exactly the accepted candidate strings returned here. -/
def recoverBiomarkersFromPartial (cleanedContent : List Char) :
    Except RecoveryError (List (List Char)) :=
  match findBiomarkersArray cleanedContent with
  | none => .error .noBiomarkersArray
  | some biomarkersText =>
    let accepted := (scanBiomarkers initScanState biomarkersText).2.filterMap acceptCandidate
    if accepted.isEmpty then .error .noCompleteBiomarkers
    else .ok accepted

/-! ### Well-formed record objects and their rendering

The claim quantifies over model responses that are truncated after `N`
syntactically complete record objects. Records are formalized as objects
whose fields hold strings, integers, booleans, null, or one level of
nested object of such primitives — the shape of the biomarker records
(`{name, value, unit, optimalRange: {min, max}, description}`) —
rendered compactly into the response text. -/

/-- Primitive JSON values appearing in record fields. -/
inductive JsonPrim where
  | jstr (s : List Char)
  | jint (n : Int)
  | jbool (b : Bool)
  | jnull
deriving DecidableEq, Repr

/-- A field value: a primitive or a nested object of primitives. -/
inductive JsonFieldVal where
  | prim (p : JsonPrim)
  | obj (fields : List (List Char × JsonPrim))
deriving DecidableEq, Repr

/-- A record object: named fields. -/
def RecordObj : Type := List (List Char × JsonFieldVal)

/-- Decimal digits of a natural number, most significant first, no leading
zeros; fuel-based so that it evaluates in the kernel. -/
def natDigitsAux : Nat → Nat → List Char
  | 0, _ => []
  | fuel + 1, n =>
    if n < 10 then [digitCh n]
    else natDigitsAux fuel (n / 10) ++ [digitCh (n % 10)]

/-- Decimal rendering of a natural number. -/
def natDigits (n : Nat) : List Char := natDigitsAux (n + 1) n

/-- JSON rendering of an integer. -/
def renderInt : Int → List Char
  | .ofNat k => natDigits k
  | .negSucc k => '-' :: natDigits (k + 1)

/-- JSON string escaping of one character (quotes and backslashes). -/
def escapeJsonChar (c : Char) : List Char :=
  if c = '"' || c = '\\' then ['\\', c] else [c]

/-- JSON rendering of a string literal. -/
def renderString (s : List Char) : List Char :=
  '"' :: (s.flatMap escapeJsonChar ++ ['"'])

/-- JSON rendering of a primitive. -/
def renderPrim : JsonPrim → List Char
  | .jstr s => renderString s
  | .jint n => renderInt n
  | .jbool true => chars "true"
  | .jbool false => chars "false"
  | .jnull => chars "null"

/-- Comma-joined concatenation. -/
def joinComma : List (List Char) → List Char
  | [] => []
  | [x] => x
  | x :: y :: rest => x ++ ',' :: joinComma (y :: rest)

/-- Rendering of a primitive field. -/
def renderPrimField (f : List Char × JsonPrim) : List Char :=
  renderString f.1 ++ ':' :: renderPrim f.2

/-- Rendering of a nested object of primitives. -/
def renderInnerObj (fields : List (List Char × JsonPrim)) : List Char :=
  '{' :: (joinComma (fields.map renderPrimField) ++ ['}'])

/-- Rendering of a field value. -/
def renderFieldVal : JsonFieldVal → List Char
  | .prim p => renderPrim p
  | .obj fs => renderInnerObj fs

/-- Rendering of a record field. -/
def renderField (f : List Char × JsonFieldVal) : List Char :=
  renderString f.1 ++ ':' :: renderFieldVal f.2

/-- Compact rendering of a record object. -/
def renderRecord (r : RecordObj) : List Char :=
  '{' :: (joinComma (r.map renderField) ++ ['}'])

/-- Strings free of control characters (so their rendering is valid JSON). -/
def goodString (s : List Char) : Bool := s.all (fun c => decide (32 ≤ c.toNat))

/-- Well-formed primitive. -/
def goodPrim : JsonPrim → Bool
  | .jstr s => goodString s
  | _ => true

/-- Well-formed primitive field. -/
def goodPrimField (f : List Char × JsonPrim) : Bool :=
  goodString f.1 && goodPrim f.2

/-- Well-formed field value. -/
def goodFieldVal : JsonFieldVal → Bool
  | .prim p => goodPrim p
  | .obj fs => fs.all goodPrimField

/-- Well-formed record object. -/
def goodRecord (r : RecordObj) : Bool :=
  r.all (fun f => goodString f.1 && goodFieldVal f.2)

/-- Characters that are inert for the scan state machine. -/
def plainChar (c : Char) : Bool :=
  !(c = '"') && !(c = '\\') && !(c = '{') && !(c = '}')

/-- The envelope prefix up to and including the array's opening bracket,
as the model emits it. -/
def envPrefix : List Char := chars "\x7b\"biomarkers\": ["

/-- A model response consisting of the envelope prefix, `N` complete
records, and an arbitrary truncated remainder. -/
def buildTruncatedResponse (rs : List RecordObj) (tail : List Char) : List Char :=
  envPrefix ++ (joinComma (rs.map renderRecord) ++ tail)

/-- Candidates the scan emits on a comma-joined record list: the records
interleaved with single-comma candidates. -/
def emissionsOf : List (List Char) → List (List Char)
  | [] => []
  | [x] => [x]
  | x :: y :: rest => x :: [','] :: emissionsOf (y :: rest)

/-- Fuel needed by the JSON checker for one field value. -/
def innerNeed : JsonFieldVal → Nat
  | .prim _ => 1
  | .obj fs => fs.length + 2

/-- Fuel needed by the JSON checker for the field values of a record. -/
def maxInner (r : RecordObj) : Nat :=
  (r.map (fun f => innerNeed f.2)).foldr max 0

/-- Separator position: the remainder after a rendered value inside an
object always starts with the separating comma or the closing brace. -/
def sepStop : List Char → Bool
  | [] => false
  | c :: _ => c = ',' || c = '}'

/-- A concrete biomarker record of the shape the model emits, used to
instantiate the truncation claim. -/
def wrec : RecordObj :=
  [(chars "name", .prim (.jstr (chars "CRP"))),
   (chars "value", .prim (.jint 5)),
   (chars "unit", .prim (.jstr (chars "mg/l"))),
   (chars "optimalRange", .obj [(chars "min", .jint 0), (chars "max", .jint 5)]),
   (chars "status", .prim (.jstr (chars "optimal")))]

/-- A concrete truncated remainder: the response breaks off inside the next
record. -/
def wtail : List Char := chars ",\x7b\"name\": \"HD"

/-! ## Theorems -/

/-- Unfolding lemma: `replaceFirstComma` walks past a non-comma head. -/
theorem replaceFirstComma_cons_ne (c : Char) (r : List Char) (hc : ¬c = ',') :
    replaceFirstComma (c :: r) = c :: replaceFirstComma r := by
  simp [replaceFirstComma, hc]

/-- Unfolding lemma: `replaceFirstComma` fires on a leading comma. -/
theorem replaceFirstComma_cons_comma (r : List Char) :
    replaceFirstComma (',' :: r) = '.' :: r := by
  simp [replaceFirstComma]

/-- C10: `parsePolishNumber` substitutes only the first comma: on any string
splitting as a comma-free prefix, a comma and a tail, it parses exactly the
string with that one comma replaced by a dot; in particular `"1,200"`
parses to `1.2` and `"1,234,5"` to `1.234`, neither being `NaN`. -/
theorem parsePolishNumber_replaces_first_comma_only :
    (∀ a b : List Char, ',' ∉ a →
      parsePolishNumber (.str (a ++ ',' :: b)) = jsParseFloat (a ++ '.' :: b))
    ∧ parsePolishNumber (.str (chars "1,200")) = some (6 / 5)
    ∧ parsePolishNumber (.str (chars "1,234,5")) = some (617 / 500) := by
  refine ⟨?_, by decide, by decide⟩
  intro a b ha
  show jsParseFloat (replaceFirstComma (a ++ ',' :: b)) = _
  congr 1
  induction a with
  | nil => exact replaceFirstComma_cons_comma b
  | cons c cs ih =>
    have hc : ¬c = ',' := fun h => ha (h ▸ List.mem_cons_self c _)
    rw [List.cons_append, replaceFirstComma_cons_ne c _ hc,
      ih (fun h => ha (List.mem_cons_of_mem c h)), List.cons_append]

/-- Witness for C10 at a concrete split. -/
theorem parsePolishNumber_replaces_first_comma_only_witness :
    (',' ∉ chars "12") ∧
      parsePolishNumber (.str (chars "12" ++ ',' :: chars "5,7")) =
        jsParseFloat (chars "12" ++ '.' :: chars "5,7") :=
  ⟨by decide, parsePolishNumber_replaces_first_comma_only.1 (chars "12") (chars "5,7") (by decide)⟩

/-- C7: normalizing the raw candidate with value `"184,0"` and range
`{min: "0", max: "190,0"}` yields value `184`, range `{0, 190}` and the
status `optimal`. -/
theorem normalize_polish_roundtrip_example :
    validateAndNormalizeBiomarkers
      [{ name := some (chars "Cholesterol"), value := .str (chars "184,0"),
         unit := some (chars "mg/dL"),
         optimalRange := some { min := .str (chars "0"), max := .str (chars "190,0") },
         description := none }]
    = [{ name := chars "Cholesterol", value := 184, unit := chars "mg/dL",
         optimalRange := { min := 0, max := 190 }, status := .optimal,
         description := [] }] := by
  decide

/-- C3 (amended): every record produced by `validateAndNormalizeBiomarkers`
carries exactly the status that `determineStatus` computes from its own
value and optimal range. -/
theorem normalized_status_follows_margin_rule
    (raws : List RawBiomarker) (b : Biomarker)
    (hb : b ∈ validateAndNormalizeBiomarkers raws) :
    b.status = determineStatus b.value b.optimalRange := by
  unfold validateAndNormalizeBiomarkers at hb
  rw [List.mem_filterMap] at hb
  obtain ⟨ob, hmem, hid⟩ := hb
  rw [List.mem_filter] at hmem
  obtain ⟨hmap, -⟩ := hmem
  rw [List.mem_map] at hmap
  obtain ⟨raw, -, hraw⟩ := hmap
  subst hraw
  simp only [id] at hid
  rw [normalizeBiomarker] at hid
  cases hv : parsePolishNumber raw.value with
  | none => rw [hv] at hid; exact absurd hid (by simp)
  | some v =>
    rw [hv] at hid
    obtain rfl := Option.some.inj hid
    rfl

/-- Witness for C3 (amended) at a concrete normalization. -/
theorem normalized_status_follows_margin_rule_witness :
    ({ name := chars "Sodium", value := 140, unit := chars "mmol/L",
       optimalRange := { min := 135, max := 145 }, status := .optimal,
       description := [] } : Biomarker) ∈
      validateAndNormalizeBiomarkers
        [{ name := some (chars "Sodium"), value := .num 140,
           unit := some (chars "mmol/L"),
           optimalRange := some { min := .num 135, max := .num 145 },
           description := none }]
    ∧ ({ name := chars "Sodium", value := 140, unit := chars "mmol/L",
         optimalRange := { min := 135, max := 145 }, status := .optimal,
         description := [] } : Biomarker).status =
        determineStatus 140 { min := 135, max := 145 } :=
  ⟨by decide,
    normalized_status_follows_margin_rule
      [{ name := some (chars "Sodium"), value := .num 140,
         unit := some (chars "mmol/L"),
         optimalRange := some { min := .num 135, max := .num 145 },
         description := none }] _ (by decide)⟩

/-- Counterexample to C3 as stated: the locally generated mock record
`Total Cholesterol` (value 220, range `[0, 200]`) is hard-coded as
`suboptimal`, while the three-band margin rule classifies 220 as `optimal`
(margin 20, so the optimal band reaches 220). -/
theorem mock_status_contradicts_margin_rule :
    (generateMockBiomarkers 0).get? 6 =
      some { name := chars "Total Cholesterol", value := 220, unit := chars "mg/dL",
             optimalRange := { min := 0, max := 200 }, status := .suboptimal,
             description := chars "Slightly elevated cholesterol levels" }
    ∧ determineStatus 220 { min := 0, max := 200 } = .optimal := by
  constructor
  · decide
  · decide

/-- Lookup after setting the same key finds the new value. -/
theorem lookupName_setName_self (m : List (List Char × Biomarker)) (k : List Char)
    (v : Biomarker) : lookupName (setName m k v) k = some v := by
  induction m with
  | nil => simp [setName, lookupName]
  | cons p rest ih =>
    obtain ⟨k1, v1⟩ := p
    by_cases h : k1 = k
    · simp [setName, lookupName, h]
    · simp [setName, lookupName, h, ih]

/-- Lookup of a different key is unchanged by `setName`. -/
theorem lookupName_setName_ne (m : List (List Char × Biomarker)) (k k' : List Char)
    (v : Biomarker) (h : ¬k' = k) :
    lookupName (setName m k v) k' = lookupName m k' := by
  have h2 : ¬k = k' := fun hh => h hh.symm
  induction m with
  | nil => simp [setName, lookupName, h2]
  | cons p rest ih =>
    obtain ⟨k1, v1⟩ := p
    by_cases h1 : k1 = k
    · subst h1
      simp [setName, lookupName, h2]
    · simp [setName, lookupName, h1, ih]

/-- Keys absent from the map have a `none` lookup. -/
theorem lookupName_none_not_mem (m : List (List Char × Biomarker)) (k : List Char)
    (h : lookupName m k = none) : k ∉ m.map Prod.fst := by
  induction m with
  | nil => simp
  | cons p rest ih =>
    obtain ⟨k1, v1⟩ := p
    by_cases h1 : k1 = k
    · simp [lookupName, h1] at h
    · rw [lookupName] at h
      simp only [h1, if_false] at h
      simp [ih h, Ne.symm h1]

/-- Setting a present key leaves the key sequence unchanged. -/
theorem map_fst_setName_mem (m : List (List Char × Biomarker)) (k : List Char)
    (v w : Biomarker) (h : lookupName m k = some w) :
    (setName m k v).map Prod.fst = m.map Prod.fst := by
  induction m with
  | nil => simp [lookupName] at h
  | cons p rest ih =>
    obtain ⟨k1, v1⟩ := p
    by_cases h1 : k1 = k
    · simp [setName, h1]
    · rw [lookupName] at h
      simp only [h1, if_false] at h
      simp [setName, h1, ih h]

/-- Setting an absent key appends it. -/
theorem map_fst_setName_none (m : List (List Char × Biomarker)) (k : List Char)
    (v : Biomarker) (h : lookupName m k = none) :
    (setName m k v).map Prod.fst = m.map Prod.fst ++ [k] := by
  induction m with
  | nil => simp [setName]
  | cons p rest ih =>
    obtain ⟨k1, v1⟩ := p
    by_cases h1 : k1 = k
    · simp [lookupName, h1] at h
    · rw [lookupName] at h
      simp only [h1, if_false] at h
      simp [setName, h1, ih h]

/-- Entries of the updated map come from the old map or are the new pair. -/
theorem mem_setName (m : List (List Char × Biomarker)) (k : List Char)
    (v : Biomarker) (p : List Char × Biomarker) (hp : p ∈ setName m k v) :
    p ∈ m ∨ p = (k, v) := by
  induction m with
  | nil => simp [setName] at hp; simp [hp]
  | cons q rest ih =>
    obtain ⟨k1, v1⟩ := q
    by_cases h1 : k1 = k
    · rw [setName] at hp
      simp only [h1, if_true] at hp
      rcases List.mem_cons.mp hp with rfl | hmem
      · right; rfl
      · left; exact List.mem_cons_of_mem _ hmem
    · rw [setName] at hp
      simp only [h1, if_false] at hp
      rcases List.mem_cons.mp hp with rfl | hmem
      · left; exact List.mem_cons_self _ _
      · rcases ih hmem with hm | he
        · left; exact List.mem_cons_of_mem _ hm
        · right; exact he

/-- Updating with a correctly-keyed pair preserves `NamesOk`. -/
theorem namesOk_setName (m : List (List Char × Biomarker)) (k : List Char)
    (v : Biomarker) (h : NamesOk m) (hv : v.name = k) : NamesOk (setName m k v) := by
  constructor
  · intro p hp
    rcases mem_setName m k v p hp with hm | rfl
    · exact h.1 p hm
    · exact hv
  · cases hl : lookupName m k with
    | some w => rw [map_fst_setName_mem m k v w hl]; exact h.2
    | none =>
      rw [map_fst_setName_none m k v hl]
      refine List.Nodup.append h.2 (List.nodup_singleton k) ?_
      intro a ha hb
      rw [List.mem_singleton] at hb
      exact lookupName_none_not_mem m k hl (hb ▸ ha)

/-- The merge step preserves `NamesOk`. -/
theorem namesOk_mergeStep (m : List (List Char × Biomarker)) (marker : Biomarker)
    (h : NamesOk m) : NamesOk (mergeStep m marker) := by
  unfold mergeStep
  cases lookupName m marker.name with
  | none => exact namesOk_setName m marker.name marker h rfl
  | some existing =>
    by_cases h1 : statusPriority existing.status < statusPriority marker.status
    · simpa [h1] using namesOk_setName m marker.name marker h rfl
    · by_cases h2 : marker.status = existing.status
      · by_cases h3 : distFromMid existing < distFromMid marker
        · simpa [h1, h2, h3] using namesOk_setName m marker.name marker h rfl
        · simpa [h1, h2, h3] using h
      · simpa [h1, h2] using h

/-- Folding the merge step preserves `NamesOk`. -/
theorem namesOk_foldl (l : List Biomarker) (m : List (List Char × Biomarker))
    (h : NamesOk m) : NamesOk (l.foldl mergeStep m) := by
  induction l generalizing m with
  | nil => exact h
  | cons r rs ih => exact ih (mergeStep m r) (namesOk_mergeStep m r h)

/-- A kept concerning record stays concerning through one merge step. -/
theorem mergeStep_keeps_concerning (m : List (List Char × Biomarker))
    (marker : Biomarker) (n : List Char)
    (h : ∃ v, lookupName m n = some v ∧ v.status = .concerning) :
    ∃ v, lookupName (mergeStep m marker) n = some v ∧ v.status = .concerning := by
  obtain ⟨v, hl, hst⟩ := h
  by_cases hn : marker.name = n
  · subst hn
    have h1 : ¬statusPriority v.status < statusPriority marker.status := by
      rw [hst]; cases marker.status <;> simp [statusPriority]
    by_cases h2 : marker.status = v.status
    · by_cases h3 : distFromMid v < distFromMid marker
      · refine ⟨marker, ?_, h2.trans hst⟩
        simp only [mergeStep, hl]
        rw [if_neg h1, if_pos h2, if_pos h3]
        exact lookupName_setName_self m marker.name marker
      · refine ⟨v, ?_, hst⟩
        simp only [mergeStep, hl]
        rw [if_neg h1, if_pos h2, if_neg h3]
        exact hl
    · refine ⟨v, ?_, hst⟩
      simp only [mergeStep, hl]
      rw [if_neg h1, if_neg h2]
      exact hl
  · have hn2 : ¬n = marker.name := fun hh => hn hh.symm
    refine ⟨v, ?_, hst⟩
    cases hL : lookupName m marker.name with
    | none =>
      simp only [mergeStep, hL]
      rw [lookupName_setName_ne m marker.name n marker hn2, hl]
    | some existing =>
      by_cases h1 : statusPriority existing.status < statusPriority marker.status
      · simp only [mergeStep, hL]
        rw [if_pos h1, lookupName_setName_ne m marker.name n marker hn2, hl]
      · by_cases h2 : marker.status = existing.status
        · by_cases h3 : distFromMid existing < distFromMid marker
          · simp only [mergeStep, hL]
            rw [if_neg h1, if_pos h2, if_pos h3,
              lookupName_setName_ne m marker.name n marker hn2, hl]
          · simp only [mergeStep, hL]
            rw [if_neg h1, if_pos h2, if_neg h3]
            exact hl
        · simp only [mergeStep, hL]
          rw [if_neg h1, if_neg h2]
          exact hl

/-- Processing a concerning record leaves a concerning record under its
name. -/
theorem mergeStep_adds_concerning (m : List (List Char × Biomarker))
    (marker : Biomarker) (hst : marker.status = .concerning) :
    ∃ v, lookupName (mergeStep m marker) marker.name = some v
      ∧ v.status = .concerning := by
  unfold mergeStep
  cases hl : lookupName m marker.name with
  | none => exact ⟨marker, lookupName_setName_self m marker.name marker, hst⟩
  | some existing =>
    by_cases h1 : statusPriority existing.status < statusPriority marker.status
    · simpa [h1] using
        ⟨marker, lookupName_setName_self m marker.name marker, hst⟩
    · have hex : existing.status = .concerning := by
        rw [hst] at h1
        cases hcs : existing.status <;> rw [hcs] at h1 <;> simp [statusPriority] at h1 ⊢
      by_cases h2 : marker.status = existing.status
      · by_cases h3 : distFromMid existing < distFromMid marker
        · simpa [h1, h2, h3] using
            ⟨marker, lookupName_setName_self m marker.name marker, hst⟩
        · simpa [h1, h2, h3] using ⟨existing, hl, hex⟩
      · simpa [h1, h2] using ⟨existing, hl, hex⟩

/-- Over a whole fold, a concerning record with name `n` in the input (or
already kept) forces a concerning record under `n` in the final map. -/
theorem foldl_keeps_concerning (l : List Biomarker)
    (m : List (List Char × Biomarker)) (n : List Char)
    (h : (∃ v, lookupName m n = some v ∧ v.status = .concerning)
      ∨ ∃ r ∈ l, r.name = n ∧ r.status = .concerning) :
    ∃ v, lookupName (l.foldl mergeStep m) n = some v ∧ v.status = .concerning := by
  induction l generalizing m with
  | nil =>
    rcases h with hm | ⟨r, hr, -⟩
    · exact hm
    · exact absurd hr (List.not_mem_nil r)
  | cons r rs ih =>
    rw [List.foldl_cons]
    apply ih
    rcases h with hm | ⟨r', hr', hname, hst⟩
    · exact Or.inl (mergeStep_keeps_concerning m r n hm)
    · rcases List.mem_cons.mp hr' with rfl | hmem
      · subst hname
        exact Or.inl (mergeStep_adds_concerning m r' hst)
      · exact Or.inr ⟨r', hmem, hname, hst⟩

/-- With coherent names and no key for `n`, filtering the values by name `n`
gives nothing. -/
theorem filter_values_none (m : List (List Char × Biomarker)) (n : List Char)
    (hnames : ∀ p ∈ m, p.2.name = p.1) (hnot : n ∉ m.map Prod.fst) :
    (m.map Prod.snd).filter (fun b => decide (b.name = n)) = [] := by
  induction m with
  | nil => rfl
  | cons p rest ih =>
    obtain ⟨k1, v1⟩ := p
    simp only [List.map_cons, List.mem_cons, not_or] at hnot
    have hv1 : v1.name = k1 := hnames (k1, v1) (List.mem_cons_self _ _)
    rw [List.map_cons, List.filter_cons]
    have hne : ¬v1.name = n := by rw [hv1]; exact fun h => hnot.1 h.symm
    simp only [hne, decide_eq_true_eq, if_neg hne]
    exact ih (fun p hp => hnames p (List.mem_cons_of_mem _ hp)) hnot.2

/-- With a well-formed map, the values filtered by a present name form
exactly the singleton of the kept record. -/
theorem filter_values_single (m : List (List Char × Biomarker)) (n : List Char)
    (v : Biomarker) (h : NamesOk m) (hl : lookupName m n = some v) :
    (m.map Prod.snd).filter (fun b => decide (b.name = n)) = [v] := by
  induction m with
  | nil => simp [lookupName] at hl
  | cons p rest ih =>
    obtain ⟨k1, v1⟩ := p
    have hv1 : v1.name = k1 := h.1 (k1, v1) (List.mem_cons_self _ _)
    have hrest : NamesOk rest :=
      ⟨fun p hp => h.1 p (List.mem_cons_of_mem _ hp), (List.nodup_cons.mp h.2).2⟩
    by_cases h1 : k1 = n
    · subst h1
      rw [lookupName] at hl
      simp only [if_pos rfl] at hl
      obtain rfl := Option.some.inj hl
      rw [List.map_cons, List.filter_cons,
        filter_values_none rest k1 hrest.1 (List.nodup_cons.mp h.2).1]
      simp [hv1]
    · rw [lookupName] at hl
      simp only [h1, if_false] at hl
      rw [List.map_cons, List.filter_cons]
      have hne : ¬v1.name = n := by rw [hv1]; exact h1
      simp only [decide_eq_true_eq, if_neg hne]
      exact ih hrest hl

/-- C4: whenever the combined input contains a record named `n` with status
`concerning` (in particular when one source document reports `n` as
concerning and another as optimal, in either order), the merged output
contains exactly one record named `n`, and its status is `concerning`. -/
theorem merge_keeps_concerning (l : List Biomarker) (n : List Char)
    (hc : ∃ r ∈ l, r.name = n ∧ r.status = .concerning) :
    ∃ v, (mergeBiomarkers l).filter (fun b => decide (b.name = n)) = [v]
      ∧ v.status = .concerning := by
  obtain ⟨v, hl, hst⟩ := foldl_keeps_concerning l [] n (Or.inr hc)
  have hok : NamesOk (l.foldl mergeStep []) :=
    namesOk_foldl l [] ⟨by simp, by simp⟩
  exact ⟨v, filter_values_single _ n v hok hl, hst⟩

/-- Witness for C4: an optimal and a concerning record for the same name
(in the optimal-first order) merge to the single concerning record. -/
theorem merge_keeps_concerning_witness :
    (∃ r ∈ [({ name := chars "CRP", value := 1 / 2, unit := chars "mg/L",
               optimalRange := { min := 0, max := 1 }, status := .optimal,
               description := [] } : Biomarker),
            ({ name := chars "CRP", value := 21 / 10, unit := chars "mg/L",
               optimalRange := { min := 0, max := 1 }, status := .concerning,
               description := [] } : Biomarker)],
        r.name = chars "CRP" ∧ r.status = .concerning)
    ∧ ∃ v, ((mergeBiomarkers
        [({ name := chars "CRP", value := 1 / 2, unit := chars "mg/L",
            optimalRange := { min := 0, max := 1 }, status := .optimal,
            description := [] } : Biomarker),
         ({ name := chars "CRP", value := 21 / 10, unit := chars "mg/L",
            optimalRange := { min := 0, max := 1 }, status := .concerning,
            description := [] } : Biomarker)]).filter
          (fun b => decide (b.name = chars "CRP"))) = [v]
      ∧ v.status = .concerning :=
  ⟨by decide, merge_keeps_concerning _ (chars "CRP") (by decide)⟩

/-- Helper: an append whose right part is nonempty is nonempty. -/
theorem isEmpty_append_right (l1 l2 : List (List Char)) (h : l2.isEmpty = false) :
    (l1 ++ l2).isEmpty = false := by
  cases l1 with
  | nil => simpa using h
  | cons x xs => rfl

/-- Helper: the validator output is nonempty when any of its three leak
checks fires. -/
theorem validateAnonymization_nonempty (content : List Char) (md : MedicalData)
    (h : (existsMatch nameMatchAt content || existsMatch peselMatchAt content
      || existsMatch emailMatchAt content) = true) :
    (validateAnonymization content md).isEmpty = false := by
  unfold validateAnonymization
  rcases Bool.or_eq_true_iff.mp h with h12 | h3
  · rcases Bool.or_eq_true_iff.mp h12 with h1 | h2
    · rw [h1]; rfl
    · rw [h2]
      cases hx : existsMatch nameMatchAt content <;> rfl
  · rw [h3]
    cases hx : existsMatch nameMatchAt content <;>
      cases hy : existsMatch peselMatchAt content <;> rfl

/-- C5: `anonymizeDocument` throws the input-type error on every non-string
or empty input, and throws a validation error (returning no document and in
particular no partially redacted text) on every input whose redacted text
still matches the name, PESEL or email detector. -/
theorem anonymizeDocument_error_contract (metadata : FileMetadata) (now : List Char) :
    (∀ content, (content = JsInput.nonString ∨ content = .strIn []) →
      anonymizeDocument content metadata now =
        .error (.inputError (chars "Content must be a non-empty string")))
    ∧ ∀ s, (existsMatch nameMatchAt (removePersonalIdentifiers s)
        || existsMatch peselMatchAt (removePersonalIdentifiers s)
        || existsMatch emailMatchAt (removePersonalIdentifiers s)) = true →
      ∃ msgs, msgs ≠ [] ∧
        anonymizeDocument (.strIn s) metadata now = .error (.validationError msgs) := by
  constructor
  · rintro content (rfl | rfl) <;> rfl
  · intro s h
    have hs : s.isEmpty = false := by
      cases s with
      | nil => exact absurd h (by decide)
      | cons c cs => rfl
    have hne := validateAnonymization_nonempty (removePersonalIdentifiers s)
      (extractMedicalData s) h
    refine ⟨validateAnonymization (removePersonalIdentifiers s) (extractMedicalData s),
      ?_, ?_⟩
    · intro hnil
      rw [hnil] at hne
      exact absurd hne (by decide)
    · rw [anonymizeDocument]
      rw [if_neg (by rw [hs]; exact Bool.false_ne_true)]
      rw [if_neg (by rw [hne]; exact Bool.false_ne_true)]

/-- Witness for C5: a non-string input, and a concrete string whose
redaction exposes a fresh 11-digit run (the address rule's optional
house-number tail stops inside a digit run), so the leak validator throws. -/
theorem anonymizeDocument_error_contract_witness :
    anonymizeDocument .nonString ⟨none, none⟩ [] =
      .error (.inputError (chars "Content must be a non-empty string"))
    ∧ ∃ msgs, msgs ≠ [] ∧
      anonymizeDocument (.strIn (chars "ul. Polna 5a12345678901 b")) ⟨none, none⟩ []
        = .error (.validationError msgs) :=
  ⟨(anonymizeDocument_error_contract ⟨none, none⟩ []).1 .nonString (Or.inl rfl),
   (anonymizeDocument_error_contract ⟨none, none⟩ []).2
     (chars "ul. Polna 5a12345678901 b") (by decide)⟩

/-- C1 (amended): whenever `anonymizeDocument` returns a document, its
`anonymizedContent` contains no match of the name, 11-digit-ID or email
detection patterns — so none of the redacted identifiers survives at word
boundaries. (The original literal-substring and placeholder-presence form
of the claim fails; see the counterexample.) -/
theorem anonymized_content_has_no_detector_match
    (content : JsInput) (metadata : FileMetadata) (now : List Char)
    (r : AnonymizedDocument)
    (h : anonymizeDocument content metadata now = .ok r) :
    existsMatch nameMatchAt r.anonymizedContent = false
    ∧ existsMatch peselMatchAt r.anonymizedContent = false
    ∧ existsMatch emailMatchAt r.anonymizedContent = false := by
  cases content with
  | nonString => exact absurd h (by simp [anonymizeDocument])
  | strIn s =>
    rw [anonymizeDocument] at h
    by_cases hs : s.isEmpty = true
    · rw [if_pos hs] at h; exact absurd h (by simp)
    · rw [if_neg hs] at h
      by_cases herr :
          (validateAnonymization (removePersonalIdentifiers s)
            (extractMedicalData s)).isEmpty = true
      · rw [if_pos herr] at h
        obtain rfl := (Except.ok.inj h).symm
        have hc : ∀ b : Bool,
            (if b = true then [chars "Potential name detected in anonymized content"]
              else []).length = 0 → True := fun _ _ => trivial
        refine ⟨?_, ?_, ?_⟩ <;>
          [skip; skip; skip] <;>
          · revert herr
            unfold validateAnonymization
            cases h1 : existsMatch nameMatchAt (removePersonalIdentifiers s) <;>
              cases h2 : existsMatch peselMatchAt (removePersonalIdentifiers s) <;>
                cases h3 : existsMatch emailMatchAt (removePersonalIdentifiers s) <;>
                  simp
      · rw [if_neg herr] at h; exact absurd h (by simp)

/-- Witness for C1 (amended) at a concrete successful anonymization. -/
theorem anonymized_content_has_no_detector_match_witness :
    existsMatch nameMatchAt
        (({ anonymizedContent := chars "abc"
            medicalData :=
              { biomarkers := []
                demographics := { age := none, weight := none, height := none, gender := none }
                testDate := none }
            metadata := { fileType := chars "unknown", fileSize := 0,
                          anonymizedAt := chars "T" } } : AnonymizedDocument).anonymizedContent)
        = false :=
  (anonymized_content_has_no_detector_match (.strIn (chars "abc")) ⟨none, none⟩ (chars "T")
    _ rfl).1

/-- Counterexample to C1 as stated: the input below contains a two-token
capitalized name (`Anna Nowak`, matched by the name detector), an 11-digit
ID and a valid email address; `anonymizeDocument` succeeds on it, yet the
returned content still contains the literal substring `Anna Nowak`
(embedded without a word boundary inside `XAnna Nowak`) and contains no
`[EMAIL]` placeholder, because the phone rule consumed the email's numeric
domain before the email rule ran. -/
theorem anonymize_c1_counterexample :
    existsMatch nameMatchAt (chars "Anna Nowak XAnna Nowak 12345678901 a@123456789.pl") = true
    ∧ existsMatch peselMatchAt (chars "Anna Nowak XAnna Nowak 12345678901 a@123456789.pl") = true
    ∧ existsMatch emailMatchAt (chars "Anna Nowak XAnna Nowak 12345678901 a@123456789.pl") = true
    ∧ anonymizeDocument
        (.strIn (chars "Anna Nowak XAnna Nowak 12345678901 a@123456789.pl"))
        ⟨none, none⟩ (chars "2025-01-01T00:00:00.000Z")
      = .ok
          { anonymizedContent := chars "[NAME] XAnna Nowak [ID] a@[PHONE].pl"
            medicalData :=
              { biomarkers := []
                demographics := { age := none, weight := none, height := none, gender := none }
                testDate := none }
            metadata := { fileType := chars "unknown", fileSize := 0,
                          anonymizedAt := chars "2025-01-01T00:00:00.000Z" } }
    ∧ containsSub (chars "[NAME] XAnna Nowak [ID] a@[PHONE].pl") (chars "Anna Nowak") = true
    ∧ containsSub (chars "[NAME] XAnna Nowak [ID] a@[PHONE].pl") (chars "[EMAIL]") = false :=
  ⟨by decide, by decide, by decide, by rfl, by decide, by decide⟩

/-- C8 (amended): `anonymizeDocument` is a deterministic function of its
arguments and the processing clock, and the clock influences nothing but
`metadata.anonymizedAt`: two invocations with equal content and metadata
agree on the error, the anonymized content, the medical data and the file
metadata, whatever the two clock readings are. (Full output equality fails;
see the counterexample.) In this embedding the helpers and
`mergeBiomarkers` are Lean functions, hence pure by construction. -/
theorem anonymizeDocument_deterministic_except_timestamp
    (content : JsInput) (metadata : FileMetadata) (now1 now2 : List Char) :
    agreeExceptTimestamp (anonymizeDocument content metadata now1)
      (anonymizeDocument content metadata now2) := by
  cases content with
  | nonString => exact rfl
  | strIn s =>
    rw [anonymizeDocument, anonymizeDocument]
    by_cases hs : s.isEmpty = true
    · rw [if_pos hs, if_pos hs]; exact rfl
    · rw [if_neg hs, if_neg hs]
      by_cases herr :
          (validateAnonymization (removePersonalIdentifiers s)
            (extractMedicalData s)).isEmpty = true
      · rw [if_pos herr, if_pos herr]
        exact ⟨rfl, rfl, rfl, rfl⟩
      · rw [if_neg herr, if_neg herr]; exact rfl

/-- Counterexample to C8 as stated: two invocations with equal arguments
but different clock readings return documents that differ in the
`metadata.anonymizedAt` field, so the full outputs are not equal. -/
theorem anonymize_timestamp_counterexample :
    anonymizeDocument (.strIn (chars "abc")) ⟨none, none⟩ (chars "2025-01-01T00:00:00.000Z")
      = .ok
          { anonymizedContent := chars "abc"
            medicalData :=
              { biomarkers := []
                demographics := { age := none, weight := none, height := none, gender := none }
                testDate := none }
            metadata := { fileType := chars "unknown", fileSize := 0,
                          anonymizedAt := chars "2025-01-01T00:00:00.000Z" } }
    ∧ anonymizeDocument (.strIn (chars "abc")) ⟨none, none⟩ (chars "2025-01-02T00:00:00.000Z")
      = .ok
          { anonymizedContent := chars "abc"
            medicalData :=
              { biomarkers := []
                demographics := { age := none, weight := none, height := none, gender := none }
                testDate := none }
            metadata := { fileType := chars "unknown", fileSize := 0,
                          anonymizedAt := chars "2025-01-02T00:00:00.000Z" } }
    ∧ ({ fileType := chars "unknown", fileSize := 0,
         anonymizedAt := chars "2025-01-01T00:00:00.000Z" } : AnonymizedMetadata)
        ≠ { fileType := chars "unknown", fileSize := 0,
            anonymizedAt := chars "2025-01-02T00:00:00.000Z" } :=
  ⟨by rfl, by rfl, by decide⟩

/-- Helper: an option chained with a `some` fallback is `some`. -/
theorem isSome_orElse_some {α : Type} (x : Option α) (y : α) :
    (x.orElse (fun _ => some y)).isSome = true := by
  cases x <;> rfl

/-- Helper: the second male pattern `mężczyzna|male|m\b` matches any text
starting with `m` or `M` whose next character is absent or not a word
character, whatever the previous character is. -/
theorem maleAltAt_isSome (pv : Option Char) (c : Char) (post : List Char)
    (hc : c = 'm' ∨ c = 'M') (hw : isWordOpt post.head? = false) :
    (maleAltAt pv (c :: post)).isSome = true := by
  have hfold : foldLower c = 'm' := by rcases hc with rfl | rfl <;> decide
  unfold maleAltAt firstSome
  simp only [List.foldl]
  simp only [hfold, hw]
  exact isSome_orElse_some _ _

/-- Helper: a matcher that ignores its previous-character argument and
fires on a suffix makes the whole-string search succeed. -/
theorem findFirstFrom_isSome_of_suffix {α : Type}
    (m : Option Char → List Char → Option α)
    (pre suf : List Char) (prev : Option Char)
    (h : ∀ pv, (m pv suf).isSome = true) :
    (findFirstFrom m prev (pre ++ suf)).isSome = true := by
  induction pre generalizing prev with
  | nil =>
    cases suf with
    | nil => exact h prev
    | cons c rest =>
      rw [List.nil_append, findFirstFrom]
      cases hx : m prev (c :: rest) with
      | some a => rfl
      | none =>
        have hp := h prev
        rw [hx] at hp
        exact absurd hp (by simp)
  | cons p ps ih =>
    rw [List.cons_append, findFirstFrom]
    cases hx : m prev (p :: (ps ++ suf)) with
    | some a => rfl
    | none => exact ih (some p)

/-- C9: any text containing an `m` or `M` followed by a non-word character
or the end of the text (for example the bare unit `cm`) makes
`extractGender` return `'M'`, regardless of any female markers also present
in the text, because every male pattern is tested before any female pattern
and the `m\b` alternative of the second male pattern matches there. -/
theorem extractGender_m_boundary_wins
    (pre post : List Char) (c : Char)
    (hc : c = 'm' ∨ c = 'M')
    (hw : isWordOpt post.head? = false) :
    extractGender (pre ++ c :: post) = some 'M' := by
  unfold extractGender
  cases h0 : existsMatch (genderKwAt (chars "m")) (pre ++ c :: post) with
  | true => rfl
  | false =>
    have h1 : existsMatch maleAltAt (pre ++ c :: post) = true := by
      unfold existsMatch findFirst
      exact findFirstFrom_isSome_of_suffix maleAltAt
        pre (c :: post) none (fun pv => maleAltAt_isSome pv c post hc hw)
    rw [h1]
    rfl

/-- Witness for C9: the text `181 cm Płeć: K` carries an explicit female
marker, yet the bare `m` of `cm` (followed by a space) forces `'M'`. -/
theorem extractGender_m_boundary_wins_witness :
    ('m' = 'm' ∨ 'm' = 'M')
    ∧ isWordOpt (chars " Płeć: K").head? = false
    ∧ extractGender (chars "181 c" ++ 'm' :: chars " Płeć: K") = some 'M' :=
  ⟨Or.inl rfl, by decide,
    extractGender_m_boundary_wins (chars "181 c") (chars " Płeć: K") 'm'
      (Or.inl rfl) (by decide)⟩

theorem isDigitCh_digitCh (n : Nat) (h : n < 10) : isDigitCh (digitCh n) = true := by
  interval_cases n <;> rfl

theorem digitValCh_digitCh (n : Nat) (h : n < 10) : digitValCh (digitCh n) = n := by
  interval_cases n <;> rfl

theorem digitCh_ne_sep (n : Nat) (h : n < 10) (c : Char) (hc : isDigitCh c = false) :
    digitCh n ≠ c := by
  intro he
  rw [← he, isDigitCh_digitCh n h] at hc
  exact absurd hc (by decide)

theorem digitsVal_pad2 (n : Nat) (h : n < 100) : digitsVal (pad2 n) = n := by
  have h1 : n / 10 % 10 = n / 10 := Nat.mod_eq_of_lt (by omega)
  have h2 : n / 10 < 10 := by omega
  have h3 : n % 10 < 10 := Nat.mod_lt _ (by norm_num)
  simp [pad2, digitsVal, List.foldl, h1, digitValCh_digitCh _ h2, digitValCh_digitCh _ h3]
  omega

theorem digitsVal_pad4 (n : Nat) (h : n < 10000) : digitsVal (pad4 n) = n := by
  have b1 : n / 1000 % 10 < 10 := Nat.mod_lt _ (by norm_num)
  have b2 : n / 100 % 10 < 10 := Nat.mod_lt _ (by norm_num)
  have b3 : n / 10 % 10 < 10 := Nat.mod_lt _ (by norm_num)
  have b4 : n % 10 < 10 := Nat.mod_lt _ (by norm_num)
  simp [pad4, digitsVal, List.foldl, digitValCh_digitCh _ b1, digitValCh_digitCh _ b2,
    digitValCh_digitCh _ b3, digitValCh_digitCh _ b4]
  omega

theorem dateSepAt_pads (sep : Char)
    (d m y : Nat) (hd : d < 100) (hm : m < 100) (hy : y < 10000) (prev : Option Char) :
    dateSepAt sep prev (pad2 d ++ sep :: (pad2 m ++ sep :: pad4 y)) =
      some (d, m, y) := by
  have bd1 : d / 10 % 10 < 10 := Nat.mod_lt _ (by norm_num)
  have bd2 : d % 10 < 10 := Nat.mod_lt _ (by norm_num)
  have bm1 : m / 10 % 10 < 10 := Nat.mod_lt _ (by norm_num)
  have bm2 : m % 10 < 10 := Nat.mod_lt _ (by norm_num)
  have by1 : y / 1000 % 10 < 10 := Nat.mod_lt _ (by norm_num)
  have by2 : y / 100 % 10 < 10 := Nat.mod_lt _ (by norm_num)
  have by3 : y / 10 % 10 < 10 := Nat.mod_lt _ (by norm_num)
  have by4 : y % 10 < 10 := Nat.mod_lt _ (by norm_num)
  simp only [pad2, pad4, List.cons_append, List.nil_append]
  simp only [dateSepAt, firstSome, List.map, List.foldl, digitsAt, charAt,
    List.drop, List.take, List.get?, List.all_cons, List.all_nil,
    isDigitCh_digitCh _ bd1, isDigitCh_digitCh _ bd2,
    isDigitCh_digitCh _ bm1, isDigitCh_digitCh _ bm2,
    isDigitCh_digitCh _ by1, isDigitCh_digitCh _ by2,
    isDigitCh_digitCh _ by3, isDigitCh_digitCh _ by4]
  simp [digitsVal, digitValCh_digitCh _ bd1, digitValCh_digitCh _ bd2,
    digitValCh_digitCh _ bm1, digitValCh_digitCh _ bm2,
    digitValCh_digitCh _ by1, digitValCh_digitCh _ by2,
    digitValCh_digitCh _ by3, digitValCh_digitCh _ by4]
  omega

theorem dateIsoAt_pads (d m y : Nat) (hd : d < 100) (hm : m < 100) (hy : y < 10000)
    (prev : Option Char) :
    dateIsoAt prev (pad4 y ++ '-' :: (pad2 m ++ '-' :: pad2 d)) =
      some (y, m, d) := by
  have bd1 : d / 10 % 10 < 10 := Nat.mod_lt _ (by norm_num)
  have bd2 : d % 10 < 10 := Nat.mod_lt _ (by norm_num)
  have bm1 : m / 10 % 10 < 10 := Nat.mod_lt _ (by norm_num)
  have bm2 : m % 10 < 10 := Nat.mod_lt _ (by norm_num)
  have by1 : y / 1000 % 10 < 10 := Nat.mod_lt _ (by norm_num)
  have by2 : y / 100 % 10 < 10 := Nat.mod_lt _ (by norm_num)
  have by3 : y / 10 % 10 < 10 := Nat.mod_lt _ (by norm_num)
  have by4 : y % 10 < 10 := Nat.mod_lt _ (by norm_num)
  simp only [pad2, pad4, List.cons_append, List.nil_append]
  simp only [dateIsoAt, firstSome, List.map, List.foldl, digitsAt, charAt,
    List.drop, List.take, List.get?, List.all_cons, List.all_nil,
    isDigitCh_digitCh _ bd1, isDigitCh_digitCh _ bd2,
    isDigitCh_digitCh _ bm1, isDigitCh_digitCh _ bm2,
    isDigitCh_digitCh _ by1, isDigitCh_digitCh _ by2,
    isDigitCh_digitCh _ by3, isDigitCh_digitCh _ by4]
  simp [digitsVal, digitValCh_digitCh _ bd1, digitValCh_digitCh _ bd2,
    digitValCh_digitCh _ bm1, digitValCh_digitCh _ bm2,
    digitValCh_digitCh _ by1, digitValCh_digitCh _ by2,
    digitValCh_digitCh _ by3, digitValCh_digitCh _ by4]
  omega

theorem dateSepAt_none_of_no_sep (sep : Char) (prev : Option Char) (l : List Char)
    (h : sep ∉ l) : dateSepAt sep prev l = none := by
  have hno : ∀ i, (charAt l i == some sep) = false := by
    intro i
    unfold charAt
    cases hg : l.get? i with
    | none => rfl
    | some c =>
      have hc : c ∈ l := List.get?_mem hg
      have hne : ¬c = sep := fun he => h (he ▸ hc)
      simp [hne]
  simp [dateSepAt, firstSome, hno]

theorem dateIsoAt_none_of_no_dash (prev : Option Char) (l : List Char)
    (h : '-' ∉ l) : dateIsoAt prev l = none := by
  have hno : ∀ i, (charAt l i == some '-') = false := by
    intro i
    unfold charAt
    cases hg : l.get? i with
    | none => rfl
    | some c =>
      have hc : c ∈ l := List.get?_mem hg
      have hne : ¬c = '-' := fun he => h (he ▸ hc)
      simp [hne]
  simp [dateIsoAt, firstSome, hno]

theorem findFirst_none_of_matcher_none {α : Type}
    (m : Option Char → List Char → Option α)
    (P : List Char → Prop)
    (hmono : ∀ c rest, P (c :: rest) → P rest)
    (hm : ∀ prev l, P l → m prev l = none)
    (l : List Char) (hP : P l) :
    findFirst m l = none := by
  unfold findFirst
  suffices hgen : ∀ prev, findFirstFrom m prev l = none from hgen none
  induction l with
  | nil => intro prev; unfold findFirstFrom; rw [hm prev [] hP]
  | cons c rest ih =>
    intro prev
    unfold findFirstFrom
    rw [hm prev (c :: rest) hP]
    exact ih (hmono c rest hP) (some c)

theorem all_digit_or_sep_fmtSep (sep : Char) (a b y : Nat) :
    ∀ x ∈ pad2 a ++ sep :: (pad2 b ++ sep :: pad4 y),
      isDigitCh x = true ∨ x = sep := by
  intro x hx
  simp [pad2, pad4] at hx
  rcases hx with rfl | rfl | rfl | rfl | rfl | rfl | rfl | rfl | rfl | rfl <;>
    first
      | exact Or.inr rfl
      | exact Or.inl (isDigitCh_digitCh _ (Nat.mod_lt _ (by norm_num)))

theorem all_digit_or_sep_fmtIso (sep : Char) (y b d : Nat) :
    ∀ x ∈ pad4 y ++ sep :: (pad2 b ++ sep :: pad2 d),
      isDigitCh x = true ∨ x = sep := by
  intro x hx
  simp [pad2, pad4] at hx
  rcases hx with rfl | rfl | rfl | rfl | rfl | rfl | rfl | rfl | rfl | rfl <;>
    first
      | exact Or.inr rfl
      | exact Or.inl (isDigitCh_digitCh _ (Nat.mod_lt _ (by norm_num)))

theorem notMem_of_all_digit_or_sep (l : List Char) (sep c : Char)
    (hall : ∀ x ∈ l, isDigitCh x = true ∨ x = sep)
    (hc : isDigitCh c = false) (hne : c ≠ sep) : c ∉ l := by
  intro hmem
  rcases hall c hmem with hd | rfl
  · rw [hc] at hd; exact Bool.noConfusion hd
  · exact hne rfl

theorem findFirst_of_head {α : Type} (m : Option Char → List Char → Option α)
    (l : List Char) (g : α) (hne : l ≠ []) (h : m none l = some g) :
    findFirst m l = some g := by
  cases l with
  | nil => exact absurd rfl hne
  | cons c rest => unfold findFirst findFirstFrom; rw [h]

theorem tryDate_valid (y m d : Nat)
    (hy1 : 2000 ≤ y) (hy2 : y ≤ 2100) (hm1 : 1 ≤ m) (hm2 : m ≤ 12)
    (hd1 : 1 ≤ d) (hd2 : d ≤ 31) (hrt : d ≤ daysInMonth y m) :
    tryDate y m d = some (canonicalDate y m d) := by
  simp [tryDate, dateRoundTrips, hy1, hy2, hm1, hm2, hd1, hd2, hrt]

theorem tryDate_invalid (y m d : Nat) (hrt : daysInMonth y m < d) :
    tryDate y m d = none := by
  simp [tryDate, dateRoundTrips, Nat.not_le.mpr hrt]

/-- C6: for every calendar-valid date with year in `[2000, 2100]`, the
three supported textual forms (`DD.MM.YYYY`, `YYYY-MM-DD` and `DD/MM/YYYY`)
are parsed by `extractTestDate` to the identical canonical year-month-day
string; and a matched numeric date whose day overflows its month (failing
the `Date.UTC` round-trip) is rejected in all three forms. -/
theorem extractTestDate_canonical (y m d : Nat)
    (hy1 : 2000 ≤ y) (hy2 : y ≤ 2100) (hm1 : 1 ≤ m) (hm2 : m ≤ 12)
    (hd1 : 1 ≤ d) (hd2 : d ≤ 31) :
    (d ≤ daysInMonth y m →
      extractTestDate (pad2 d ++ '.' :: (pad2 m ++ '.' :: pad4 y))
          = some (canonicalDate y m d)
        ∧ extractTestDate (pad4 y ++ '-' :: (pad2 m ++ '-' :: pad2 d))
          = some (canonicalDate y m d)
        ∧ extractTestDate (pad2 d ++ '/' :: (pad2 m ++ '/' :: pad4 y))
          = some (canonicalDate y m d))
    ∧ (daysInMonth y m < d →
      extractTestDate (pad2 d ++ '.' :: (pad2 m ++ '.' :: pad4 y)) = none
        ∧ extractTestDate (pad4 y ++ '-' :: (pad2 m ++ '-' :: pad2 d)) = none
        ∧ extractTestDate (pad2 d ++ '/' :: (pad2 m ++ '/' :: pad4 y)) = none) := by
  have hdlt : d < 100 := by omega
  have hmlt : m < 100 := by omega
  have hylt : y < 10000 := by omega
  have hne1 : pad2 d ++ '.' :: (pad2 m ++ '.' :: pad4 y) ≠ [] := by simp [pad2]
  have hne2 : pad4 y ++ '-' :: (pad2 m ++ '-' :: pad2 d) ≠ [] := by simp [pad4]
  have hne3 : pad2 d ++ '/' :: (pad2 m ++ '/' :: pad4 y) ≠ [] := by simp [pad2]
  -- first matches of each pattern on each form
  have hf11 : findFirst (dateSepAt '.') (pad2 d ++ '.' :: (pad2 m ++ '.' :: pad4 y))
      = some (d, m, y) :=
    findFirst_of_head _ _ _ hne1 (dateSepAt_pads '.' d m y hdlt hmlt hylt none)
  have hf22 : findFirst dateIsoAt (pad4 y ++ '-' :: (pad2 m ++ '-' :: pad2 d))
      = some (y, m, d) :=
    findFirst_of_head _ _ _ hne2 (dateIsoAt_pads d m y hdlt hmlt hylt none)
  have hf33 : findFirst (dateSepAt '/') (pad2 d ++ '/' :: (pad2 m ++ '/' :: pad4 y))
      = some (d, m, y) :=
    findFirst_of_head _ _ _ hne3 (dateSepAt_pads '/' d m y hdlt hmlt hylt none)
  -- non-matches of the other patterns on each form
  have noSep : ∀ (sep : Char) (l : List Char), sep ∉ l →
      findFirst (dateSepAt sep) l = none := fun sep l hl =>
    findFirst_none_of_matcher_none _ (fun l2 => sep ∉ l2)
      (fun c rest hP hmem => hP (List.mem_cons_of_mem c hmem))
      (fun prev l2 hP => dateSepAt_none_of_no_sep sep prev l2 hP) l hl
  have noIso : ∀ l : List Char, '-' ∉ l → findFirst dateIsoAt l = none := fun l hl =>
    findFirst_none_of_matcher_none _ (fun l2 => '-' ∉ l2)
      (fun c rest hP hmem => hP (List.mem_cons_of_mem c hmem))
      (fun prev l2 hP => dateIsoAt_none_of_no_dash prev l2 hP) l hl
  have hf12 : findFirst dateIsoAt (pad2 d ++ '.' :: (pad2 m ++ '.' :: pad4 y)) = none :=
    noIso _ (notMem_of_all_digit_or_sep _ '.' '-'
      (all_digit_or_sep_fmtSep '.' d m y) (by decide) (by decide))
  have hf13 : findFirst (dateSepAt '/') (pad2 d ++ '.' :: (pad2 m ++ '.' :: pad4 y)) = none :=
    noSep '/' _ (notMem_of_all_digit_or_sep _ '.' '/'
      (all_digit_or_sep_fmtSep '.' d m y) (by decide) (by decide))
  have hf21 : findFirst (dateSepAt '.') (pad4 y ++ '-' :: (pad2 m ++ '-' :: pad2 d)) = none :=
    noSep '.' _ (notMem_of_all_digit_or_sep _ '-' '.'
      (all_digit_or_sep_fmtIso '-' y m d) (by decide) (by decide))
  have hf23 : findFirst (dateSepAt '/') (pad4 y ++ '-' :: (pad2 m ++ '-' :: pad2 d)) = none :=
    noSep '/' _ (notMem_of_all_digit_or_sep _ '-' '/'
      (all_digit_or_sep_fmtIso '-' y m d) (by decide) (by decide))
  have hf31 : findFirst (dateSepAt '.') (pad2 d ++ '/' :: (pad2 m ++ '/' :: pad4 y)) = none :=
    noSep '.' _ (notMem_of_all_digit_or_sep _ '/' '.'
      (all_digit_or_sep_fmtSep '/' d m y) (by decide) (by decide))
  have hf32 : findFirst dateIsoAt (pad2 d ++ '/' :: (pad2 m ++ '/' :: pad4 y)) = none :=
    noIso _ (notMem_of_all_digit_or_sep _ '/' '-'
      (all_digit_or_sep_fmtSep '/' d m y) (by decide) (by decide))
  constructor
  · intro hrt
    have ht := tryDate_valid y m d hy1 hy2 hm1 hm2 hd1 hd2 hrt
    refine ⟨?_, ?_, ?_⟩
    · rw [extractTestDate, hf11]
      simp [ht]
    · rw [extractTestDate, hf21, hf22]
      simp [ht]
    · rw [extractTestDate, hf31, hf32, hf33]
      simp [ht]
  · intro hrt
    have ht := tryDate_invalid y m d hrt
    refine ⟨?_, ?_, ?_⟩
    · rw [extractTestDate, hf11, hf12, hf13]
      simp [ht]
    · rw [extractTestDate, hf21, hf22, hf23]
      simp [ht]
    · rw [extractTestDate, hf31, hf32, hf33]
      simp [ht]

/-- Witness for C6 at the concrete date 15 January 2025. -/
theorem extractTestDate_canonical_witness :
    (15 ≤ daysInMonth 2025 1)
    ∧ (extractTestDate (pad2 15 ++ '.' :: (pad2 1 ++ '.' :: pad4 2025))
          = some (canonicalDate 2025 1 15)
        ∧ extractTestDate (pad4 2025 ++ '-' :: (pad2 1 ++ '-' :: pad2 15))
          = some (canonicalDate 2025 1 15)
        ∧ extractTestDate (pad2 15 ++ '/' :: (pad2 1 ++ '/' :: pad4 2025))
          = some (canonicalDate 2025 1 15)) :=
  ⟨by decide,
    (extractTestDate_canonical 2025 1 15 (by decide) (by decide) (by decide)
      (by decide) (by decide) (by decide)).1 (by decide)⟩

theorem scanStep_escape (st : ScanState) (c : Char) (h : st.escapeNext = true) :
    scanStep st c = (⟨st.braceCount, st.inString, false, st.current ++ [c]⟩, none) := by
  simp [scanStep, h]

theorem scanStep_backslash (st : ScanState) (h : st.escapeNext = false) :
    scanStep st '\\' = (⟨st.braceCount, st.inString, true, st.current ++ ['\\']⟩, none) := by
  simp [scanStep, h]

theorem scanStep_inString (st : ScanState) (c : Char) (hesc : st.escapeNext = false)
    (hstr : st.inString = true) (hc1 : ¬c = '\\') (hc2 : ¬c = '"') :
    scanStep st c = (⟨st.braceCount, true, false, st.current ++ [c]⟩, none) := by
  simp [scanStep, hesc, hstr, hc1, hc2]

theorem scanStep_quote_open (st : ScanState) (hesc : st.escapeNext = false)
    (hstr : st.inString = false) :
    scanStep st '"' = (⟨st.braceCount, true, false, st.current ++ ['"']⟩, none) := by
  simp [scanStep, hesc, hstr]

theorem scanStep_quote_close (st : ScanState) (hesc : st.escapeNext = false)
    (hstr : st.inString = true) (hd : ¬st.braceCount = 0) :
    scanStep st '"' = (⟨st.braceCount, false, false, st.current ++ ['"']⟩, none) := by
  simp [scanStep, hesc, hstr, hd]

theorem scanStep_open_brace (st : ScanState) (hesc : st.escapeNext = false)
    (hstr : st.inString = false) (hd : ¬st.braceCount + 1 = 0) :
    scanStep st '{' = (⟨st.braceCount + 1, false, false, st.current ++ ['{']⟩, none) := by
  simp [scanStep, hesc, hstr, hd]

theorem scanStep_close_brace_deep (st : ScanState) (hesc : st.escapeNext = false)
    (hstr : st.inString = false) (hd : ¬st.braceCount - 1 = 0) :
    scanStep st '}' = (⟨st.braceCount - 1, false, false, st.current ++ ['}']⟩, none) := by
  simp [scanStep, hesc, hstr, hd]

theorem scanStep_close_brace_emit (st : ScanState) (hesc : st.escapeNext = false)
    (hstr : st.inString = false) (hd : st.braceCount - 1 = 0)
    (htrim : ¬(trimStr (st.current ++ ['}'])).length = 0) :
    scanStep st '}' = (⟨0, false, false, []⟩, some (st.current ++ ['}'])) := by
  simp [scanStep, hesc, hstr, hd, htrim]

theorem scanStep_plain_deep (st : ScanState) (c : Char) (hesc : st.escapeNext = false)
    (hstr : st.inString = false) (hc : plainChar c = true) (hd : ¬st.braceCount = 0) :
    scanStep st c = (⟨st.braceCount, false, false, st.current ++ [c]⟩, none) := by
  simp only [plainChar, Bool.and_eq_true, Bool.not_eq_true'] at hc
  have h1 : ¬c = '"' := by simpa using hc.1.1.1
  have h2 : ¬c = '\\' := by simpa using hc.1.1.2
  have h3 : ¬c = '{' := by simpa using hc.1.2
  have h4 : ¬c = '}' := by simpa using hc.2
  simp [scanStep, hesc, hstr, h1, h2, h3, h4, hd]

theorem scanBiomarkers_step_none (st st2 : ScanState) (c : Char) (rest : List Char)
    (h : scanStep st c = (st2, none)) :
    scanBiomarkers st (c :: rest) = scanBiomarkers st2 rest := by
  rw [scanBiomarkers, h]

theorem scanBiomarkers_step_some (st st2 : ScanState) (c : Char) (cand : List Char)
    (rest : List Char) (h : scanStep st c = (st2, some cand)) :
    scanBiomarkers st (c :: rest) =
      ((scanBiomarkers st2 rest).1, cand :: (scanBiomarkers st2 rest).2) := by
  rw [scanBiomarkers, h]

theorem scanBiomarkers_append (st : ScanState) (a b : List Char) :
    scanBiomarkers st (a ++ b) =
      ((scanBiomarkers (scanBiomarkers st a).1 b).1,
        (scanBiomarkers st a).2 ++ (scanBiomarkers (scanBiomarkers st a).1 b).2) := by
  induction a generalizing st with
  | nil => simp [scanBiomarkers]
  | cons c cs ih =>
    rw [List.cons_append, scanBiomarkers, scanBiomarkers]
    cases (scanStep st c).2 with
    | none => exact ih (scanStep st c).1
    | some cand => rw [ih (scanStep st c).1]; rfl

theorem scan_stringBody (s : List Char) (d : Int) (buf : List Char) :
    scanBiomarkers ⟨d, true, false, buf⟩ (s.flatMap escapeJsonChar) =
      (⟨d, true, false, buf ++ s.flatMap escapeJsonChar⟩, []) := by
  induction s generalizing buf with
  | nil => simp [scanBiomarkers]
  | cons c cs ih =>
    rw [List.flatMap_cons]
    by_cases hc : c = '"' ∨ c = '\\'
    · have he : escapeJsonChar c = ['\\', c] := by
        rcases hc with rfl | rfl <;> simp [escapeJsonChar]
      rw [he, List.cons_append, List.cons_append,
        scanBiomarkers_step_none _ _ _ _ (scanStep_backslash ⟨d, true, false, buf⟩ rfl)]
      rw [scanBiomarkers_step_none _ _ _ _
        (scanStep_escape ⟨d, true, true, buf ++ ['\\']⟩ c rfl)]
      dsimp only
      rw [List.nil_append, ih]
      simp
    · push_neg at hc
      have he : escapeJsonChar c = [c] := by simp [escapeJsonChar, hc.1, hc.2]
      rw [he, List.cons_append,
        scanBiomarkers_step_none _ _ _ _
          (scanStep_inString ⟨d, true, false, buf⟩ c rfl rfl hc.2 hc.1)]
      dsimp only
      rw [List.nil_append, ih]
      simp

theorem scan_renderString (s : List Char) (d : Int) (hd : ¬d = 0) (buf : List Char) :
    scanBiomarkers ⟨d, false, false, buf⟩ (renderString s) =
      (⟨d, false, false, buf ++ renderString s⟩, []) := by
  rw [renderString,
    scanBiomarkers_step_none _ _ _ _ (scanStep_quote_open ⟨d, false, false, buf⟩ rfl rfl)]
  rw [scanBiomarkers_append]
  rw [scan_stringBody]
  rw [scanBiomarkers_step_none _ _ _ _
    (scanStep_quote_close ⟨d, true, false, (buf ++ ['"']) ++ s.flatMap escapeJsonChar⟩
      rfl rfl hd)]
  simp [scanBiomarkers]

theorem scan_plain_run (cs : List Char) (h : cs.all plainChar = true) (d : Int)
    (hd : ¬d = 0) (buf : List Char) :
    scanBiomarkers ⟨d, false, false, buf⟩ cs = (⟨d, false, false, buf ++ cs⟩, []) := by
  induction cs generalizing buf with
  | nil => simp [scanBiomarkers]
  | cons c cs2 ih =>
    rw [List.all_cons, Bool.and_eq_true] at h
    rw [scanBiomarkers_step_none _ _ _ _
      (scanStep_plain_deep ⟨d, false, false, buf⟩ c rfl rfl h.1 hd)]
    dsimp only
    rw [ih h.2]
    simp

theorem plainChar_digitCh (n : Nat) : plainChar (digitCh n) = true := by
  rcases n with _ | _ | _ | _ | _ | _ | _ | _ | _ | _ | n <;> rfl

theorem natDigitsAux_plain (fuel n : Nat) :
    (natDigitsAux fuel n).all plainChar = true := by
  induction fuel generalizing n with
  | zero => rfl
  | succ f ih =>
    rw [natDigitsAux]
    by_cases h : n < 10
    · simp [h, plainChar_digitCh]
    · simp [h, plainChar_digitCh, ih]

theorem renderInt_plain (n : Int) : (renderInt n).all plainChar = true := by
  cases n with
  | ofNat k => exact natDigitsAux_plain _ _
  | negSucc k =>
    rw [renderInt, List.all_cons]
    rw [Bool.and_eq_true]
    exact ⟨rfl, natDigitsAux_plain _ _⟩

/-- Chunks that only extend the buffer when scanned at depth `d` outside a
string. -/
def InertAt (d : Int) (xs : List Char) : Prop :=
  ∀ buf, scanBiomarkers ⟨d, false, false, buf⟩ xs = (⟨d, false, false, buf ++ xs⟩, [])

theorem inertAt_append (d : Int) (a b : List Char)
    (ha : InertAt d a) (hb : InertAt d b) : InertAt d (a ++ b) := by
  intro buf
  rw [scanBiomarkers_append, ha buf]
  dsimp only
  rw [hb (buf ++ a)]
  simp

theorem inertAt_plain (d : Int) (hd : ¬d = 0) (cs : List Char)
    (h : cs.all plainChar = true) : InertAt d cs :=
  fun buf => scan_plain_run cs h d hd buf

theorem inertAt_renderString (d : Int) (hd : ¬d = 0) (s : List Char) :
    InertAt d (renderString s) :=
  fun buf => scan_renderString s d hd buf

theorem inertAt_renderPrim (d : Int) (hd : ¬d = 0) (p : JsonPrim) :
    InertAt d (renderPrim p) := by
  cases p with
  | jstr s => exact inertAt_renderString d hd s
  | jint n => exact inertAt_plain d hd _ (renderInt_plain n)
  | jbool b => cases b <;> exact inertAt_plain d hd _ (by decide)
  | jnull => exact inertAt_plain d hd _ (by decide)

theorem inertAt_cons (d : Int) (c : Char) (xs : List Char)
    (hc : plainChar c = true) (hd : ¬d = 0) (hxs : InertAt d xs) :
    InertAt d (c :: xs) := by
  intro buf
  rw [scanBiomarkers_step_none _ _ _ _
    (scanStep_plain_deep ⟨d, false, false, buf⟩ c rfl rfl hc hd)]
  dsimp only
  rw [hxs]
  simp

theorem inertAt_renderPrimField (d : Int) (hd : ¬d = 0) (f : List Char × JsonPrim) :
    InertAt d (renderPrimField f) :=
  inertAt_append d _ _ (inertAt_renderString d hd f.1)
    (inertAt_cons d ':' _ (by decide) hd (inertAt_renderPrim d hd f.2))

theorem inertAt_joinComma (d : Int) (hd : ¬d = 0) (xs : List (List Char))
    (h : ∀ x ∈ xs, InertAt d x) : InertAt d (joinComma xs) := by
  induction xs with
  | nil => intro buf; simp [joinComma, scanBiomarkers]
  | cons x ys ih =>
    cases ys with
    | nil => simpa [joinComma] using h x (List.mem_cons_self _ _)
    | cons y rest =>
      rw [joinComma]
      exact inertAt_append d _ _ (h x (List.mem_cons_self _ _))
        (inertAt_cons d ',' _ (by decide) hd
          (ih (fun z hz => h z (List.mem_cons_of_mem _ hz))))

theorem inertAt_innerObj (fs : List (List Char × JsonPrim)) (d : Int) (hd : 0 < d) :
    InertAt d (renderInnerObj fs) := by
  intro buf
  have hd1 : ¬d = 0 := by omega
  have hd2 : ¬d + 1 = 0 := by omega
  rw [renderInnerObj,
    scanBiomarkers_step_none _ _ _ _
      (scanStep_open_brace ⟨d, false, false, buf⟩ rfl rfl (by dsimp only; omega))]
  dsimp only
  rw [scanBiomarkers_append,
    inertAt_joinComma (d + 1) hd2 _ (fun z hz => by
      rw [List.mem_map] at hz
      obtain ⟨f, -, rfl⟩ := hz
      exact inertAt_renderPrimField (d + 1) hd2 f) (buf ++ ['{'])]
  dsimp only
  rw [scanBiomarkers_step_none _ _ _ _
    (scanStep_close_brace_deep
      ⟨d + 1, false, false, buf ++ ['{'] ++ joinComma (fs.map renderPrimField)⟩
      rfl rfl (by dsimp only; omega))]
  dsimp only
  simp [scanBiomarkers]

theorem inertAt_renderFieldVal (d : Int) (hd : 0 < d) (v : JsonFieldVal) :
    InertAt d (renderFieldVal v) := by
  cases v with
  | prim p => exact inertAt_renderPrim d (by omega) p
  | obj fs => exact inertAt_innerObj fs d hd

theorem inertAt_renderField (d : Int) (hd : 0 < d) (f : List Char × JsonFieldVal) :
    InertAt d (renderField f) :=
  inertAt_append d _ _ (inertAt_renderString d (by omega) f.1)
    (inertAt_cons d ':' _ (by decide) (by omega) (inertAt_renderFieldVal d hd f.2))

theorem dropWhile_ne_nil_of_mem {p : Char → Bool} {x : Char} {l : List Char}
    (hx : x ∈ l) (hp : p x = false) : l.dropWhile p ≠ [] := by
  induction l with
  | nil => exact absurd hx (List.not_mem_nil x)
  | cons c rest ih =>
    rw [List.dropWhile_cons]
    rcases List.mem_cons.mp hx with rfl | hmem
    · rw [hp]; simp
    · by_cases hc : p c
      · rw [if_pos hc]; exact ih hmem
      · rw [if_neg hc]; simp
  
theorem trimStr_head_not_ws (c : Char) (l : List Char) (hc : jsWhitespace c = false) :
    ¬(trimStr (c :: l)).length = 0 := by
  intro hlen
  rw [List.length_eq_zero] at hlen
  unfold trimStr at hlen
  rw [List.dropWhile_cons, hc] at hlen
  simp only [if_false, Bool.false_eq_true] at hlen
  have hmem : c ∈ (c :: l).reverse := by simp
  have := dropWhile_ne_nil_of_mem hmem hc
  rw [List.reverse_eq_nil_iff] at hlen
  exact this hlen

theorem scan_renderRecord (r : RecordObj) :
    scanBiomarkers initScanState (renderRecord r) = (initScanState, [renderRecord r]) := by
  rw [renderRecord, initScanState,
    scanBiomarkers_step_none _ _ _ _
      (scanStep_open_brace ⟨0, false, false, []⟩ rfl rfl (by dsimp only; omega))]
  simp only [zero_add, List.nil_append]
  rw [scanBiomarkers_append,
    inertAt_joinComma 1 (by omega) _ (fun z hz => by
      rw [List.mem_map] at hz
      obtain ⟨f, -, rfl⟩ := hz
      exact inertAt_renderField 1 (by omega) f) ['{']]
  dsimp only
  have hemit := scanStep_close_brace_emit
    ⟨1, false, false, ['{'] ++ joinComma (r.map renderField)⟩
    rfl rfl (by dsimp only; omega)
    (by dsimp only; exact trimStr_head_not_ws '{' _ rfl)
  rw [scanBiomarkers_step_some _ _ _ _ _ hemit]
  dsimp only
  simp [scanBiomarkers, initScanState]

theorem scanStep_plain_emit (st : ScanState) (c : Char) (hesc : st.escapeNext = false)
    (hstr : st.inString = false) (hc : plainChar c = true) (hd : st.braceCount = 0)
    (htrim : ¬(trimStr (st.current ++ [c])).length = 0) :
    scanStep st c = (⟨st.braceCount, false, false, []⟩, some (st.current ++ [c])) := by
  simp only [plainChar, Bool.and_eq_true, Bool.not_eq_true'] at hc
  have h1 : ¬c = '"' := by simpa using hc.1.1.1
  have h2 : ¬c = '\\' := by simpa using hc.1.1.2
  have h3 : ¬c = '{' := by simpa using hc.1.2
  have h4 : ¬c = '}' := by simpa using hc.2
  simp [scanStep, hesc, hstr, h1, h2, h3, h4, hd, htrim]

theorem scan_joined (rs : List RecordObj) :
    scanBiomarkers initScanState (joinComma (rs.map renderRecord)) =
      (initScanState, emissionsOf (rs.map renderRecord)) := by
  induction rs with
  | nil => simp [joinComma, emissionsOf, scanBiomarkers]
  | cons r rest ih =>
    cases rest with
    | nil => simpa [joinComma, emissionsOf] using scan_renderRecord r
    | cons r2 rest2 =>
      rw [List.map_cons] at ih
      rw [List.map_cons, List.map_cons, joinComma, emissionsOf]
      rw [scanBiomarkers_append, scan_renderRecord r]
      dsimp only
      have hemit := scanStep_plain_emit initScanState ',' rfl rfl (by decide) rfl
        (trimStr_head_not_ws ',' [] rfl)
      rw [scanBiomarkers_step_some _ _ _ _ _ hemit]
      simp only [initScanState] at ih ⊢
      rw [ih]
      simp

theorem digit_toNat {d : Char} (h : isDigitCh d = true) :
    48 ≤ d.toNat ∧ d.toNat ≤ 57 := by
  rw [isDigitCh, Bool.and_eq_true, decide_eq_true_eq, decide_eq_true_eq] at h
  obtain ⟨h1, h2⟩ := h
  rw [Char.le_def] at h1 h2
  exact ⟨h1, h2⟩

theorem digit_ne {d : Char} (h : isDigitCh d = true) (c : Char)
    (hc : c.toNat < 48 ∨ 57 < c.toNat) : ¬d = c := by
  intro he
  have := digit_toNat h
  subst he
  omega

theorem jsonWs_digit {d : Char} (h : isDigitCh d = true) : jsonWs d = false := by
  have h1 := digit_ne h ' ' (by decide)
  have h2 := digit_ne h '\t' (by decide)
  have h3 := digit_ne h '\n' (by decide)
  have h4 := digit_ne h '\r' (by decide)
  simp [jsonWs, h1, h2, h3, h4]

theorem digitCh_ne_zero (m : Nat) (h1 : 1 ≤ m) (h2 : m < 10) : ¬digitCh m = '0' := by
  interval_cases m <;> decide

theorem natDigitsAux_spec (fuel : Nat) : ∀ n, n + 1 ≤ fuel →
    ∃ d t, natDigitsAux fuel n = d :: t ∧ isDigitCh d = true ∧
      (1 ≤ n → ¬d = '0') ∧ t.all isDigitCh = true := by
  induction fuel with
  | zero => intro n h; omega
  | succ f ih =>
    intro n h
    rw [natDigitsAux]
    by_cases h10 : n < 10
    · rw [if_pos h10]
      exact ⟨digitCh n, [], rfl, isDigitCh_digitCh n h10,
        fun h1 => digitCh_ne_zero n h1 h10, rfl⟩
    · rw [if_neg h10]
      have hdiv : n / 10 + 1 ≤ f := by
        have h1 : n / 10 < n := Nat.div_lt_self (by omega) (by omega)
        omega
      obtain ⟨d, t, heq, hd, hnz, ht⟩ := ih (n / 10) hdiv
      refine ⟨d, t ++ [digitCh (n % 10)], by rw [heq]; rfl, hd,
        fun _ => hnz (Nat.one_le_div_iff (by omega) |>.mpr (by omega)), ?_⟩
      rw [List.all_append, ht, Bool.true_and, List.all_cons,
        isDigitCh_digitCh (n % 10) (Nat.mod_lt _ (by omega))]
      rfl

theorem natDigits_spec (n : Nat) :
    ∃ d t, natDigits n = d :: t ∧ isDigitCh d = true ∧
      (1 ≤ n → ¬d = '0') ∧ t.all isDigitCh = true :=
  natDigitsAux_spec (n + 1) n (le_refl _)

theorem dropWhile_all_append (p : Char → Bool) (t rest : List Char)
    (ht : t.all p = true) (hr : rest.dropWhile p = rest) :
    (t ++ rest).dropWhile p = rest := by
  induction t with
  | nil => rw [List.nil_append]; exact hr
  | cons c cs ih =>
    rw [List.all_cons, Bool.and_eq_true] at ht
    rw [List.cons_append, List.dropWhile_cons, ht.1, if_pos rfl]
    exact ih ht.2

theorem sepStop_cases {rest : List Char} (h : sepStop rest = true) :
    (∃ r, rest = ',' :: r) ∨ ∃ r, rest = '}' :: r := by
  cases rest with
  | nil => exact absurd h (by decide)
  | cons c r =>
    rw [sepStop, Bool.or_eq_true, decide_eq_true_eq, decide_eq_true_eq] at h
    rcases h with rfl | rfl
    · exact Or.inl ⟨r, rfl⟩
    · exact Or.inr ⟨r, rfl⟩

theorem pExp_stop {rest : List Char} (h : sepStop rest = true) :
    pExp rest = some rest := by
  rcases sepStop_cases h with ⟨r, rfl⟩ | ⟨r, rfl⟩ <;> simp [pExp]

theorem pFrac_stop {rest : List Char} (h : sepStop rest = true) :
    pFrac rest = some rest := by
  rcases sepStop_cases h with ⟨r, rfl⟩ | ⟨r, rfl⟩ <;> simp [pFrac, pExp]

theorem dropWhile_digit_sepStop {rest : List Char} (h : sepStop rest = true) :
    rest.dropWhile isDigitCh = rest := by
  rcases sepStop_cases h with ⟨r, rfl⟩ | ⟨r, rfl⟩ <;>
    rw [List.dropWhile_cons, if_neg (by decide)]

theorem pNumber_digits (d : Char) (t rest : List Char) (hd : isDigitCh d = true)
    (hnz : ¬d = '0') (ht : t.all isDigitCh = true) (h : sepStop rest = true) :
    pNumber (d :: (t ++ rest)) = some rest := by
  have hne : ¬d = '-' := digit_ne hd '-' (by decide)
  simp only [pNumber]
  rw [if_neg hne]
  simp only []
  rw [if_neg hnz, if_pos hd,
    dropWhile_all_append _ t rest ht (dropWhile_digit_sepStop h)]
  exact pFrac_stop h

theorem pNumber_neg (d : Char) (x : List Char) (hd : ¬d = '-') :
    pNumber ('-' :: d :: x) = pNumber (d :: x) := by
  simp only [pNumber]
  rw [if_neg hd]
  simp

theorem pNumber_renderInt (n : Int) (rest : List Char) (h : sepStop rest = true) :
    pNumber (renderInt n ++ rest) = some rest := by
  cases n with
  | ofNat k =>
    cases k with
    | zero =>
      rw [show renderInt (Int.ofNat 0) ++ rest = '0' :: rest from rfl,
        show pNumber ('0' :: rest) = pFrac rest from rfl]
      exact pFrac_stop h
    | succ j =>
      obtain ⟨d, t, heq, hd, hnz, ht⟩ := natDigits_spec (j + 1)
      rw [renderInt, heq, List.cons_append]
      exact pNumber_digits d t rest hd (hnz (by omega)) ht h
  | negSucc k =>
    obtain ⟨d, t, heq, hd, hnz, ht⟩ := natDigits_spec (k + 1)
    rw [renderInt, heq, List.cons_append, List.cons_append,
      pNumber_neg d _ (digit_ne hd '-' (by decide))]
    exact pNumber_digits d t rest hd (hnz (by omega)) ht h

theorem pStringRest_quote (x : List Char) : pStringRest ('"' :: x) = some x := by
  rw [pStringRest.eq_def]
  simp

theorem pStringRest_esc_q (x : List Char) :
    pStringRest ('\\' :: '"' :: x) = pStringRest x := by
  rw [pStringRest.eq_def]
  simp

theorem pStringRest_esc_b (x : List Char) :
    pStringRest ('\\' :: '\\' :: x) = pStringRest x := by
  rw [pStringRest.eq_def]
  simp

theorem pStringRest_plain (c : Char) (x : List Char) (h1 : ¬c = '"')
    (h2 : ¬c = '\\') (h3 : ¬c.toNat < 32) :
    pStringRest (c :: x) = pStringRest x := by
  rw [pStringRest.eq_def]
  simp only []
  rw [if_neg h1, if_neg h2, if_neg h3]

theorem pStringRest_render (s : List Char) (hs : goodString s = true)
    (rest : List Char) :
    pStringRest (s.flatMap escapeJsonChar ++ ('"' :: rest)) = some rest := by
  induction s with
  | nil => rw [List.flatMap_nil, List.nil_append, pStringRest_quote]
  | cons c cs ih =>
    rw [goodString, List.all_cons, Bool.and_eq_true] at hs
    have h32 : 32 ≤ c.toNat := by simpa using hs.1
    have ih2 := ih hs.2
    rw [List.flatMap_cons, escapeJsonChar, List.append_assoc]
    by_cases hq : c = '"' ∨ c = '\\'
    · have hesc : (if c = '"' || c = '\\' then ['\\', c] else [c]) = ['\\', c] := by
        rcases hq with rfl | rfl <;> simp
      rw [hesc]
      rcases hq with rfl | rfl
      · rw [show (['\\', '"'] : List Char) ++ (cs.flatMap escapeJsonChar ++ '"' :: rest) =
          '\\' :: '"' :: (cs.flatMap escapeJsonChar ++ '"' :: rest) from rfl,
          pStringRest_esc_q]
        exact ih2
      · rw [show (['\\', '\\'] : List Char) ++ (cs.flatMap escapeJsonChar ++ '"' :: rest) =
          '\\' :: '\\' :: (cs.flatMap escapeJsonChar ++ '"' :: rest) from rfl,
          pStringRest_esc_b]
        exact ih2
    · push_neg at hq
      have hesc : (if c = '"' || c = '\\' then ['\\', c] else [c]) = [c] := by
        simp [hq.1, hq.2]
      rw [hesc, List.singleton_append, pStringRest_plain c _ hq.1 hq.2 (by omega)]
      exact ih2

theorem skipJsonWs_not_ws (c : Char) (x : List Char) (h : jsonWs c = false) :
    skipJsonWs (c :: x) = c :: x := by
  rw [skipJsonWs, List.dropWhile_cons, h, if_neg (by simp)]

theorem startsWithLit_ne_head (c0 : Char) (ps : List Char) (d : Char)
    (x : List Char) (hne : ¬c0 = d) :
    startsWithLit (c0 :: ps) (d :: x) = false := by
  rw [startsWithLit]
  simp [hne]

theorem pValue_string (fuel : Nat) (x : List Char) :
    pValue (fuel + 1) ('"' :: x) = pStringRest x := by
  rw [pValue.eq_def]
  simp

theorem pValue_number (fuel : Nat) (d : Char) (x : List Char)
    (h1 : ¬d = '"') (h2 : ¬d = '{') (h3 : ¬d = '[')
    (h4 : startsWithLit (chars "true") (d :: x) = false)
    (h5 : startsWithLit (chars "false") (d :: x) = false)
    (h6 : startsWithLit (chars "null") (d :: x) = false) :
    pValue (fuel + 1) (d :: x) = pNumber (d :: x) := by
  rw [pValue.eq_def]
  simp only []
  rw [if_neg h1, if_neg h2, if_neg h3, if_neg (by rw [h4]; simp),
    if_neg (by rw [h5]; simp), if_neg (by rw [h6]; simp)]

theorem pValue_obj_members (fuel : Nat) (d : Char) (x : List Char)
    (hd : jsonWs d = false) (hne : ¬d = '}') :
    pValue (fuel + 1) ('{' :: d :: x) = pObjMembers fuel (d :: x) := by
  rw [pValue.eq_def]
  simp only []
  rw [if_neg (by decide), if_pos trivial, skipJsonWs_not_ws d x hd]
  simp only []
  rw [if_neg hne]

theorem pValue_obj_empty (fuel : Nat) (x : List Char) :
    pValue (fuel + 1) ('{' :: '}' :: x) = some x := by
  rw [pValue.eq_def]
  simp [skipJsonWs_not_ws '}' x (by decide)]

theorem startsWithLit_self (p rest : List Char) :
    startsWithLit p (p ++ rest) = true := by
  induction p with
  | nil => rfl
  | cons c cs ih => rw [List.cons_append, startsWithLit]; simp [ih]

theorem startsWithLit_true_ne (d : Char) (x : List Char) (hne : ¬d = 't') :
    startsWithLit (chars "true") (d :: x) = false := by
  rw [show chars "true" = 't' :: ['r', 'u', 'e'] from rfl]
  exact startsWithLit_ne_head _ _ _ _ (fun he => hne he.symm)

theorem startsWithLit_false_ne (d : Char) (x : List Char) (hne : ¬d = 'f') :
    startsWithLit (chars "false") (d :: x) = false := by
  rw [show chars "false" = 'f' :: ['a', 'l', 's', 'e'] from rfl]
  exact startsWithLit_ne_head _ _ _ _ (fun he => hne he.symm)

theorem startsWithLit_null_ne (d : Char) (x : List Char) (hne : ¬d = 'n') :
    startsWithLit (chars "null") (d :: x) = false := by
  rw [show chars "null" = 'n' :: ['u', 'l', 'l'] from rfl]
  exact startsWithLit_ne_head _ _ _ _ (fun he => hne he.symm)

theorem pValue_digits (fuel : Nat) (d : Char) (t rest : List Char)
    (hd : isDigitCh d = true) (hnz : ¬d = '0') (ht : t.all isDigitCh = true)
    (h : sepStop rest = true) :
    pValue (fuel + 1) (d :: (t ++ rest)) = some rest := by
  rw [pValue_number fuel d _ (digit_ne hd '"' (by decide)) (digit_ne hd '{' (by decide))
    (digit_ne hd '[' (by decide))
    (startsWithLit_true_ne d _ (digit_ne hd 't' (by decide)))
    (startsWithLit_false_ne d _ (digit_ne hd 'f' (by decide)))
    (startsWithLit_null_ne d _ (digit_ne hd 'n' (by decide)))]
  exact pNumber_digits d t rest hd hnz ht h

theorem pValue_renderPrim (fuel : Nat) (p : JsonPrim) (hp : goodPrim p = true)
    (rest : List Char) (h : sepStop rest = true) :
    pValue (fuel + 1) (renderPrim p ++ rest) = some rest := by
  cases p with
  | jstr s =>
    have hps : goodString s = true := hp
    rw [show renderPrim (JsonPrim.jstr s) = renderString s from rfl]
    rw [renderString, List.cons_append, List.append_assoc, List.singleton_append,
      pValue_string, pStringRest_render s hps]
  | jint n =>
    rw [show renderPrim (JsonPrim.jint n) = renderInt n from rfl]
    cases n with
    | ofNat k =>
      cases k with
      | zero =>
        rw [show renderInt (Int.ofNat 0) ++ rest = '0' :: rest from rfl,
          pValue_number fuel '0' rest (by decide) (by decide) (by decide)
            (startsWithLit_true_ne '0' rest (by decide))
            (startsWithLit_false_ne '0' rest (by decide))
            (startsWithLit_null_ne '0' rest (by decide)),
          show pNumber ('0' :: rest) = pFrac rest from rfl]
        exact pFrac_stop h
      | succ j =>
        obtain ⟨d, t, heq, hd, hnz, ht⟩ := natDigits_spec (j + 1)
        rw [renderInt, heq, List.cons_append]
        exact pValue_digits fuel d t rest hd (hnz (by omega)) ht h
    | negSucc k =>
      obtain ⟨d, t, heq, hd, hnz, ht⟩ := natDigits_spec (k + 1)
      rw [renderInt, List.cons_append,
        pValue_number fuel '-' _ (by decide) (by decide) (by decide)
          (startsWithLit_true_ne '-' _ (by decide))
          (startsWithLit_false_ne '-' _ (by decide))
          (startsWithLit_null_ne '-' _ (by decide)),
        heq, List.cons_append, pNumber_neg d _ (digit_ne hd '-' (by decide))]
      exact pNumber_digits d t rest hd (hnz (by omega)) ht h
  | jbool b =>
    rcases sepStop_cases h with ⟨r, rfl⟩ | ⟨r, rfl⟩ <;> cases b <;>
      · rw [renderPrim.eq_def, pValue.eq_def]
        simp [startsWithLit, show chars "true" = ['t', 'r', 'u', 'e'] from rfl,
          show chars "false" = ['f', 'a', 'l', 's', 'e'] from rfl,
          show chars "null" = ['n', 'u', 'l', 'l'] from rfl]
  | jnull =>
    rcases sepStop_cases h with ⟨r, rfl⟩ | ⟨r, rfl⟩ <;>
      · rw [renderPrim.eq_def, pValue.eq_def]
        simp [startsWithLit, show chars "true" = ['t', 'r', 'u', 'e'] from rfl,
          show chars "false" = ['f', 'a', 'l', 's', 'e'] from rfl,
          show chars "null" = ['n', 'u', 'l', 'l'] from rfl]

theorem renderPrim_head (p : JsonPrim) :
    ∃ c x, renderPrim p = c :: x ∧ jsonWs c = false := by
  cases p with
  | jstr s => exact ⟨'"', _, rfl, by decide⟩
  | jint n =>
    cases n with
    | ofNat k =>
      obtain ⟨d, t, heq, hd, -, -⟩ := natDigits_spec k
      exact ⟨d, t, by rw [show renderPrim (JsonPrim.jint (Int.ofNat k)) =
        renderInt (Int.ofNat k) from rfl, renderInt, heq], jsonWs_digit hd⟩
    | negSucc k => exact ⟨'-', natDigits (k + 1), rfl, by decide⟩
  | jbool b => cases b with
    | true => exact ⟨'t', ['r', 'u', 'e'], rfl, by decide⟩
    | false => exact ⟨'f', ['a', 'l', 's', 'e'], rfl, by decide⟩
  | jnull => exact ⟨'n', ['u', 'l', 'l'], rfl, by decide⟩

theorem skipJsonWs_renderPrim (p : JsonPrim) (y : List Char) :
    skipJsonWs (renderPrim p ++ y) = renderPrim p ++ y := by
  obtain ⟨c, x, he, hw⟩ := renderPrim_head p
  rw [he, List.cons_append, skipJsonWs_not_ws c _ hw]

theorem pObjMembers_member_close (g2 : Nat) (f : List Char × JsonPrim)
    (y : List Char) (hkey : goodString f.1 = true) (hval : goodPrim f.2 = true) :
    pObjMembers (g2 + 2) (renderPrimField f ++ ('}' :: y)) = some y := by
  rw [renderPrimField, renderString]
  simp only [List.cons_append, List.append_assoc, List.singleton_append]
  rw [pObjMembers.eq_def]
  simp only []
  rw [pStringRest_render _ hkey]
  simp only [List.nil_append]
  rw [skipJsonWs_not_ws ':' _ (by decide)]
  simp only []
  rw [skipJsonWs_renderPrim, pValue_renderPrim g2 f.2 hval ('}' :: y) rfl]
  simp only []
  rfl

theorem pObjMembers_member_comma (g2 : Nat) (f : List Char × JsonPrim)
    (y : List Char) (hkey : goodString f.1 = true) (hval : goodPrim f.2 = true) :
    pObjMembers (g2 + 2) (renderPrimField f ++ (',' :: y)) =
      pObjMembers (g2 + 1) (skipJsonWs y) := by
  rw [renderPrimField, renderString]
  simp only [List.cons_append, List.append_assoc, List.singleton_append]
  rw [pObjMembers.eq_def]
  simp only []
  rw [pStringRest_render _ hkey]
  simp only [List.nil_append]
  rw [skipJsonWs_not_ws ':' _ (by decide)]
  simp only []
  rw [skipJsonWs_renderPrim, pValue_renderPrim g2 f.2 hval (',' :: y) rfl]
  simp only []
  rfl

theorem joinComma_head (x : List Char) (l : List (List Char)) :
    ∃ z, joinComma (x :: l) = x ++ z := by
  cases l with
  | nil => exact ⟨[], (List.append_nil x).symm⟩
  | cons y r => exact ⟨',' :: joinComma (y :: r), by rw [joinComma]⟩

theorem skipJsonWs_joinComma_pf (f : List Char × JsonPrim)
    (l : List (List Char)) (y : List Char) :
    skipJsonWs (joinComma (renderPrimField f :: l) ++ y) =
      joinComma (renderPrimField f :: l) ++ y := by
  obtain ⟨z, hz⟩ := joinComma_head (renderPrimField f) l
  rw [hz, renderPrimField, renderString]
  simp only [List.cons_append, List.append_assoc]
  exact skipJsonWs_not_ws '"' _ (by decide)

theorem pObjMembers_primFields (fs : List (List Char × JsonPrim)) :
    ∀ fuel rest, fs.length + 1 ≤ fuel → fs.all goodPrimField = true → fs ≠ [] →
    pObjMembers fuel (joinComma (fs.map renderPrimField) ++ ('}' :: rest)) =
      some rest := by
  induction fs with
  | nil => intro fuel rest _ _ hne; exact absurd rfl hne
  | cons f fs2 ih =>
    intro fuel rest hfuel hgood _
    rw [List.all_cons, Bool.and_eq_true] at hgood
    obtain ⟨hgf, hrest⟩ := hgood
    rw [goodPrimField, Bool.and_eq_true] at hgf
    obtain ⟨hkey, hval⟩ := hgf
    rw [List.length_cons] at hfuel
    obtain ⟨g2, rfl⟩ : ∃ g2, fuel = g2 + 2 := ⟨fuel - 2, by omega⟩
    cases fs2 with
    | nil =>
      rw [List.map_cons, List.map_nil, joinComma]
      exact pObjMembers_member_close g2 f rest hkey hval
    | cons f2 fs3 =>
      rw [List.map_cons, List.map_cons, joinComma]
      simp only [List.append_assoc, List.cons_append]
      rw [pObjMembers_member_comma g2 f _ hkey hval,
        skipJsonWs_joinComma_pf f2 (fs3.map renderPrimField) ('}' :: rest)]
      exact ih (g2 + 1) rest (by simp at hfuel ⊢; omega) hrest (by simp)

theorem renderFieldVal_head (v : JsonFieldVal) :
    ∃ c x, renderFieldVal v = c :: x ∧ jsonWs c = false := by
  cases v with
  | prim p =>
    obtain ⟨c, x, he, hw⟩ := renderPrim_head p
    exact ⟨c, x, by rw [show renderFieldVal (JsonFieldVal.prim p) = renderPrim p
      from rfl, he], hw⟩
  | obj fs => exact ⟨'{', _, rfl, by decide⟩

theorem skipJsonWs_renderFieldVal (v : JsonFieldVal) (y : List Char) :
    skipJsonWs (renderFieldVal v ++ y) = renderFieldVal v ++ y := by
  obtain ⟨c, x, he, hw⟩ := renderFieldVal_head v
  rw [he, List.cons_append, skipJsonWs_not_ws c _ hw]

theorem pValue_obj_join (g : Nat) (f : List Char × JsonPrim)
    (l : List (List Char)) (y : List Char) :
    pValue (g + 1) ('{' :: (joinComma (renderPrimField f :: l) ++ y)) =
      pObjMembers g (joinComma (renderPrimField f :: l) ++ y) := by
  obtain ⟨z, hz⟩ := joinComma_head (renderPrimField f) l
  rw [hz, renderPrimField, renderString]
  simp only [List.cons_append, List.append_assoc]
  exact pValue_obj_members g '"' _ (by decide) (by decide)

theorem pValue_renderFieldVal (v : JsonFieldVal) (hv : goodFieldVal v = true)
    (rest : List Char) (hsep : sepStop rest = true) :
    ∀ fuel, innerNeed v ≤ fuel → pValue fuel (renderFieldVal v ++ rest) = some rest := by
  cases v with
  | prim p =>
    intro fuel hf
    have hf1 : 1 ≤ fuel := hf
    obtain ⟨g, rfl⟩ : ∃ g, fuel = g + 1 := ⟨fuel - 1, by omega⟩
    rw [show renderFieldVal (JsonFieldVal.prim p) = renderPrim p from rfl]
    exact pValue_renderPrim g p hv rest hsep
  | obj fs =>
    intro fuel hf
    rw [innerNeed] at hf
    obtain ⟨g, rfl⟩ : ∃ g, fuel = g + 1 := ⟨fuel - 1, by omega⟩
    rw [show renderFieldVal (JsonFieldVal.obj fs) = renderInnerObj fs from rfl,
      renderInnerObj]
    simp only [List.cons_append, List.append_assoc, List.singleton_append,
      List.nil_append]
    cases fs with
    | nil =>
      rw [List.map_nil, show joinComma [] = ([] : List Char) from rfl, List.nil_append]
      exact pValue_obj_empty g rest
    | cons f fs2 =>
      rw [List.map_cons, pValue_obj_join g f (fs2.map renderPrimField) ('}' :: rest)]
      refine pObjMembers_primFields (f :: fs2) g rest ?_ hv (by simp)
      rw [List.length_cons] at hf ⊢
      omega

theorem pObjMembers_field_close (g2 : Nat) (f : List Char × JsonFieldVal)
    (y : List Char) (hkey : goodString f.1 = true) (hval : goodFieldVal f.2 = true)
    (hg : innerNeed f.2 ≤ g2 + 1) :
    pObjMembers (g2 + 2) (renderField f ++ ('}' :: y)) = some y := by
  rw [renderField, renderString]
  simp only [List.cons_append, List.append_assoc, List.singleton_append]
  rw [pObjMembers.eq_def]
  simp only []
  rw [pStringRest_render _ hkey]
  simp only [List.nil_append]
  rw [skipJsonWs_not_ws ':' _ (by decide)]
  simp only []
  rw [skipJsonWs_renderFieldVal,
    pValue_renderFieldVal f.2 hval ('}' :: y) rfl (g2 + 1) hg]
  simp only []
  rfl

theorem pObjMembers_field_comma (g2 : Nat) (f : List Char × JsonFieldVal)
    (y : List Char) (hkey : goodString f.1 = true) (hval : goodFieldVal f.2 = true)
    (hg : innerNeed f.2 ≤ g2 + 1) :
    pObjMembers (g2 + 2) (renderField f ++ (',' :: y)) =
      pObjMembers (g2 + 1) (skipJsonWs y) := by
  rw [renderField, renderString]
  simp only [List.cons_append, List.append_assoc, List.singleton_append]
  rw [pObjMembers.eq_def]
  simp only []
  rw [pStringRest_render _ hkey]
  simp only [List.nil_append]
  rw [skipJsonWs_not_ws ':' _ (by decide)]
  simp only []
  rw [skipJsonWs_renderFieldVal,
    pValue_renderFieldVal f.2 hval (',' :: y) rfl (g2 + 1) hg]
  simp only []
  rfl

theorem skipJsonWs_joinComma_field (f : List Char × JsonFieldVal)
    (l : List (List Char)) (y : List Char) :
    skipJsonWs (joinComma (renderField f :: l) ++ y) =
      joinComma (renderField f :: l) ++ y := by
  obtain ⟨z, hz⟩ := joinComma_head (renderField f) l
  rw [hz, renderField, renderString]
  simp only [List.cons_append, List.append_assoc]
  exact skipJsonWs_not_ws '"' _ (by decide)

theorem maxInner_cons (f : List Char × JsonFieldVal) (l : RecordObj) :
    maxInner (f :: l) = max (innerNeed f.2) (maxInner l) := rfl

theorem pObjMembers_fields (r : RecordObj) :
    ∀ fuel rest, r.length + maxInner r + 1 ≤ fuel → goodRecord r = true → r ≠ [] →
    pObjMembers fuel (joinComma (r.map renderField) ++ ('}' :: rest)) = some rest := by
  induction r with
  | nil => intro fuel rest _ _ hne; exact absurd rfl hne
  | cons f fs ih =>
    intro fuel rest hfuel hgood _
    rw [goodRecord, List.all_cons, Bool.and_eq_true] at hgood
    obtain ⟨hgf, hrest⟩ := hgood
    rw [Bool.and_eq_true] at hgf
    obtain ⟨hkey, hval⟩ := hgf
    rw [List.length_cons, maxInner_cons] at hfuel
    have hmax1 := le_max_left (innerNeed f.2) (maxInner fs)
    have hmax2 := le_max_right (innerNeed f.2) (maxInner fs)
    obtain ⟨g2, rfl⟩ : ∃ g2, fuel = g2 + 2 := ⟨fuel - 2, by omega⟩
    cases fs with
    | nil =>
      rw [List.map_cons, List.map_nil, joinComma]
      exact pObjMembers_field_close g2 f rest hkey hval (by omega)
    | cons f2 fs3 =>
      rw [List.map_cons, List.map_cons, joinComma]
      simp only [List.append_assoc, List.cons_append]
      rw [pObjMembers_field_comma g2 f _ hkey hval (by omega),
        skipJsonWs_joinComma_field f2 (fs3.map renderField) ('}' :: rest)]
      refine ih (g2 + 1) rest ?_ hrest (by simp)
      omega

theorem renderString_length (t : List Char) : 2 ≤ (renderString t).length := by
  rw [renderString, List.length_cons, List.length_append]
  simp

theorem renderPrim_length (p : JsonPrim) : 1 ≤ (renderPrim p).length := by
  obtain ⟨c, x, he, -⟩ := renderPrim_head p
  rw [he, List.length_cons]
  omega

theorem joinComma_length_ge (xs : List (List Char))
    (h : ∀ x ∈ xs, 1 ≤ x.length) : xs.length ≤ (joinComma xs).length := by
  induction xs with
  | nil => simp [joinComma]
  | cons x l ih =>
    cases l with
    | nil =>
      rw [joinComma, List.length_cons, List.length_nil]
      exact h x (List.mem_cons_self _ _)
    | cons y r =>
      have h1 := h x (List.mem_cons_self _ _)
      have h2 := ih (fun z hz => h z (List.mem_cons_of_mem _ hz))
      rw [joinComma]
      simp only [List.length_cons, List.length_append] at h2 ⊢
      omega

theorem renderPrimField_length (f : List Char × JsonPrim) :
    1 ≤ (renderPrimField f).length := by
  rw [renderPrimField, List.length_append]
  have := renderString_length f.1
  omega

theorem renderFieldVal_length (v : JsonFieldVal) :
    innerNeed v ≤ (renderFieldVal v).length := by
  cases v with
  | prim p =>
    rw [show renderFieldVal (JsonFieldVal.prim p) = renderPrim p from rfl, innerNeed]
    exact renderPrim_length p
  | obj fs =>
    rw [show renderFieldVal (JsonFieldVal.obj fs) = renderInnerObj fs from rfl,
      innerNeed, renderInnerObj, List.length_cons, List.length_append]
    have := joinComma_length_ge (fs.map renderPrimField) (by
      intro x hx
      rw [List.mem_map] at hx
      obtain ⟨f, -, rfl⟩ := hx
      exact renderPrimField_length f)
    rw [List.length_map] at this
    simp only [List.length_singleton]
    omega

theorem renderField_length (f : List Char × JsonFieldVal) :
    3 + innerNeed f.2 ≤ (renderField f).length := by
  rw [renderField, List.length_append, List.length_cons]
  have h1 := renderString_length f.1
  have h2 := renderFieldVal_length f.2
  omega

theorem fields_length (r : RecordObj) :
    r ≠ [] → r.length + maxInner r ≤ (joinComma (r.map renderField)).length + 1 := by
  induction r with
  | nil => intro hne; exact absurd rfl hne
  | cons f fs ih =>
    intro _
    rw [List.length_cons, maxInner_cons]
    have hmax : max (innerNeed f.2) (maxInner fs) ≤ innerNeed f.2 + maxInner fs :=
      max_le (by omega) (by omega)
    have hf := renderField_length f
    cases fs with
    | nil =>
      rw [List.map_cons, List.map_nil, joinComma]
      rw [show maxInner ([] : RecordObj) = 0 from rfl, Nat.max_zero,
        List.length_nil]
      omega
    | cons f2 fs3 =>
      have h2 := ih (by simp)
      rw [List.map_cons] at h2
      rw [List.map_cons, List.map_cons, joinComma]
      simp only [List.length_cons, List.length_append] at h2 ⊢
      omega

theorem renderRecord_length (r : RecordObj) (hne : r ≠ []) :
    r.length + maxInner r + 1 ≤ (renderRecord r).length := by
  rw [renderRecord, List.length_cons, List.length_append, List.length_singleton]
  have := fields_length r hne
  omega

theorem pValue_obj_join_f (g : Nat) (f : List Char × JsonFieldVal)
    (l : List (List Char)) (y : List Char) :
    pValue (g + 1) ('{' :: (joinComma (renderField f :: l) ++ y)) =
      pObjMembers g (joinComma (renderField f :: l) ++ y) := by
  obtain ⟨z, hz⟩ := joinComma_head (renderField f) l
  rw [hz, renderField, renderString]
  simp only [List.cons_append, List.append_assoc]
  exact pValue_obj_members g '"' _ (by decide) (by decide)

theorem jsonValid_renderRecord (r : RecordObj) (hr : goodRecord r = true) :
    jsonValid (renderRecord r) = true := by
  cases r with
  | nil => decide
  | cons f fs =>
    rw [jsonValid]
    rw [show renderRecord (f :: fs) =
      '{' :: (joinComma ((f :: fs).map renderField) ++ ['}']) from rfl]
    rw [skipJsonWs_not_ws '{' _ (by decide)]
    rw [List.map_cons, pValue_obj_join_f _ f (fs.map renderField) ['}'],
      ← List.map_cons]
    rw [pObjMembers_fields (f :: fs) _ [] ?hfuel hr (by simp)]
    · rfl
    case hfuel =>
      have h1 := renderRecord_length (f :: fs) (by simp)
      rw [show renderRecord (f :: fs) =
        '{' :: (joinComma ((f :: fs).map renderField) ++ ['}']) from rfl] at h1
      simp only [List.map_cons, List.length_cons, List.length_append,
        List.length_singleton] at h1 ⊢
      omega

theorem trimStr_wrapped (a b : Char) (m : List Char)
    (ha : jsWhitespace a = false) (hb : jsWhitespace b = false) :
    trimStr (a :: (m ++ [b])) = a :: (m ++ [b]) := by
  rw [trimStr, List.dropWhile_cons, ha, if_neg (by simp)]
  rw [List.reverse_cons, List.reverse_append]
  simp only [List.reverse_cons, List.reverse_nil, List.nil_append,
    List.singleton_append, List.cons_append]
  rw [List.dropWhile_cons, hb, if_neg (by simp)]
  simp [List.reverse_append]

theorem stripTrailingComma_brace (x : List Char) :
    stripTrailingComma (x ++ ['}']) = x ++ ['}'] := by
  rw [stripTrailingComma]
  simp only [List.reverse_append, List.reverse_cons, List.reverse_nil,
    List.nil_append, List.singleton_append]
  rw [List.takeWhile_cons]
  simp [jsWhitespace]

theorem acceptCandidate_comma : acceptCandidate [','] = none := by decide

theorem acceptCandidate_renderRecord (r : RecordObj) (hr : goodRecord r = true) :
    acceptCandidate (renderRecord r) = some (renderRecord r) := by
  have hsh : renderRecord r = ('{' :: joinComma (r.map renderField)) ++ ['}'] := rfl
  have htrim : trimStr (renderRecord r) = renderRecord r := by
    rw [show renderRecord r = '{' :: (joinComma (r.map renderField) ++ ['}'])
      from rfl]
    exact trimStr_wrapped '{' '}' _ (by decide) (by decide)
  have hstrip : stripTrailingComma (renderRecord r) = renderRecord r := by
    rw [hsh]
    exact stripTrailingComma_brace _
  have h1 : startsWithLit (chars "\x7b") (renderRecord r) = true := by
    rw [show chars "\x7b" = ['{'] from rfl,
      show renderRecord r = '{' :: (joinComma (r.map renderField) ++ ['}'])
        from rfl]
    simp [startsWithLit]
  have h2 : endsWithLit (chars "\x7d") (renderRecord r) = true := by
    rw [endsWithLit, show (chars "\x7d").reverse = ['}'] from rfl, hsh,
      List.reverse_append]
    simp [startsWithLit]
  rw [acceptCandidate]
  simp only [htrim, hstrip, h1, h2, jsonValid_renderRecord r hr]
  rfl

theorem filterMap_emissions (rs : List RecordObj)
    (h : ∀ r ∈ rs, goodRecord r = true) :
    (emissionsOf (rs.map renderRecord)).filterMap acceptCandidate =
      rs.map renderRecord := by
  induction rs with
  | nil => rfl
  | cons r rest ih =>
    have hr := h r (List.mem_cons_self _ _)
    cases rest with
    | nil =>
      rw [List.map_cons, List.map_nil, emissionsOf]
      simp [List.filterMap_cons, acceptCandidate_renderRecord r hr]
    | cons r2 rest2 =>
      have ih2 := ih (fun z hz => h z (List.mem_cons_of_mem _ hz))
      rw [List.map_cons] at ih2
      rw [List.map_cons, List.map_cons, emissionsOf]
      simp only [List.filterMap_cons, acceptCandidate_renderRecord r hr,
        acceptCandidate_comma, ih2]

theorem findBiomarkersArray_env (X : List Char) :
    findBiomarkersArray (envPrefix ++ X) = some X := by
  rw [findBiomarkersArray, findFirst, envPrefix]
  rw [show chars "\x7b\"biomarkers\": [" ++ X =
    '{' :: '"' :: 'b' :: 'i' :: 'o' :: 'm' :: 'a' :: 'r' :: 'k' :: 'e' :: 'r' ::
      's' :: '"' :: ':' :: ' ' :: '[' :: X from rfl]
  rw [findFirstFrom]
  rw [show biomarkersArrayAt none ('{' :: '"' :: 'b' :: 'i' :: 'o' :: 'm' :: 'a' ::
    'r' :: 'k' :: 'e' :: 'r' :: 's' :: '"' :: ':' :: ' ' :: '[' :: X) = none by
      rw [biomarkersArrayAt]
      simp [startsWithLit, chars]]
  rw [findFirstFrom]
  rw [show biomarkersArrayAt (some '{') ('"' :: 'b' :: 'i' :: 'o' :: 'm' :: 'a' ::
    'r' :: 'k' :: 'e' :: 'r' :: 's' :: '"' :: ':' :: ' ' :: '[' :: X) = some X by
      rw [biomarkersArrayAt]
      simp [startsWithLit, chars, List.dropWhile_cons, jsWhitespace]]

theorem recoverBiomarkers_never_ok_nil (content : List Char) :
    recoverBiomarkersFromPartial content ≠ Except.ok [] := by
  intro hok
  rw [recoverBiomarkersFromPartial] at hok
  cases hfind : findBiomarkersArray content with
  | none => rw [hfind] at hok; exact absurd hok (by simp)
  | some bt =>
    rw [hfind] at hok
    simp only [] at hok
    by_cases hemp :
        ((scanBiomarkers initScanState bt).2.filterMap acceptCandidate).isEmpty
    · rw [if_pos hemp] at hok
      exact absurd hok (by simp)
    · rw [if_neg hemp] at hok
      rw [Except.ok.injEq] at hok
      rw [hok] at hemp
      exact hemp rfl

/-- C2: for every model response that is a well-formed biomarkers envelope
truncated after N complete record objects (N at least 1, records rendered
compactly from well-formed record ASTs, the remainder contributing no
accepted candidate), the structured-recovery path returns exactly the N
records — their count equals N — and on any input with zero recoverable
records it fails with an explicit error rather than returning an empty
list. -/
theorem recovery_exact_records (rs : List RecordObj) (tail : List Char)
    (hne : rs ≠ []) (hgood : ∀ r ∈ rs, goodRecord r = true)
    (htail : (scanBiomarkers initScanState tail).2.filterMap acceptCandidate = []) :
    recoverBiomarkersFromPartial (buildTruncatedResponse rs tail) =
      Except.ok (rs.map renderRecord) ∧
    (rs.map renderRecord).length = rs.length ∧
    ∀ content, recoverBiomarkersFromPartial content ≠ Except.ok [] := by
  refine ⟨?_, List.length_map _ _, recoverBiomarkers_never_ok_nil⟩
  have hne2 : ¬(List.filterMap acceptCandidate
      ((scanBiomarkers initScanState
        (joinComma (rs.map renderRecord) ++ tail)).2)).isEmpty = true := by
    rw [scanBiomarkers_append, scan_joined]
    simp only []
    rw [List.filterMap_append, filterMap_emissions rs hgood, htail,
      List.append_nil]
    cases rs with
    | nil => exact absurd rfl hne
    | cons a l => simp
  rw [recoverBiomarkersFromPartial, buildTruncatedResponse,
    findBiomarkersArray_env]
  simp only []
  rw [if_neg hne2, scanBiomarkers_append, scan_joined]
  simp only []
  rw [List.filterMap_append, filterMap_emissions rs hgood, htail,
    List.append_nil]

theorem recovery_exact_records_witness :
    ([wrec] : List RecordObj) ≠ [] ∧
    recoverBiomarkersFromPartial (buildTruncatedResponse [wrec] wtail) =
      Except.ok ([wrec].map renderRecord) :=
  ⟨List.cons_ne_nil _ _, (recovery_exact_records [wrec] wtail
    (List.cons_ne_nil _ _) (by decide) (by decide)).1⟩
